import Mathlib

/-!
The class `TextToSpeech` of godot-kokoro (src/text_to_speech.cpp).

A shallow embedding of the text chunker (`split_into_chunks`) and of the
asynchronous generation pipeline (`speak_async`, `speak_streaming`,
`worker_thread_func`, `process_pending_results`, `cancel_generation`,
`is_generating`), followed by theorems about them.

Conventions of the embedding:
* a Godot `String` is the list of its characters (`List Char`, Unicode
  scalar values);
* `uint64_t` is a `Nat` reduced modulo `2 ^ 64` where it is incremented;
* `int` is an `Int`;
* `float` values (the speed) are only ever copied, never computed with, so
  their type is a parameter `F`;
* `Ref<AudioStreamWAV>` is an `Option A`: `none` is the invalid (null)
  reference, `A` is the type of audio objects;
* `std::queue` is a list, front of the queue first; `push` appends at the
  back, `pop` removes the head;
* console output (`print`, `printerr`) is not modelled.
-/

namespace TextToSpeech

/-! ## Text chunker -/

/-- Modelled from the spec: the character class removed by the engine method
`String::strip_edges`, which is not part of the repository sources. The spec
calls it whitespace; the engine strips every character whose code is at most
32 (space, tab, line feed, carriage return and the other control codes). -/
def is_whitespace (c : Char) : Bool := decide (c.toNat ≤ 32)

/-- Modelled from the spec: the engine method `String::strip_edges`, which is
not part of the repository sources: "trim leading/trailing whitespace". -/
def strip_edges (s : List Char) : List Char :=
  (s.dropWhile is_whitespace).rdropWhile is_whitespace

/-- The test `c == '.' || c == '!' || c == '?'` (line 531). -/
def is_terminator (c : Char) : Bool := c == '.' || c == '!' || c == '?'

/-- The test `next == '"' || next == '\'' || next == ')' || next == ']'`
(line 535); the double quote is code 34 and the single quote is code 39. -/
def is_closer (c : Char) : Bool :=
  c == Char.ofNat 34 || c == Char.ofNat 39 || c == ')' || c == ']'

/-- The look-ahead loop of lines 533-541. `rest` is the text from index `i + 1`
on; every closer at its front is appended to `current_chunk` and `i` is
advanced past it. Returns the chunk buffer and the text that is left. -/
def absorb_closers : List Char → List Char → List Char × List Char
  | current_chunk, [] => (current_chunk, [])
  | current_chunk, next :: rest =>
    if is_closer next then absorb_closers (current_chunk ++ [next]) rest
    else (current_chunk, next :: rest)

/-- Lines 544-547: `trimmed = current_chunk.strip_edges()`, pushed when it is
not empty. -/
def push_trimmed (chunks : List (List Char)) (current_chunk : List Char) : List (List Char) :=
  if (strip_edges current_chunk).isEmpty then chunks else chunks ++ [strip_edges current_chunk]

/-- The `for` loop of lines 526-553. The second argument is the text from
index `i` on; the result is the final `chunks` and `current_chunk`. The first
argument bounds the number of iterations; the loop runs at most once per
character (`scan_fuel` below). The local `in_sentence` is written by the loop
but never read, and is left out. -/
def scan : Nat → List Char → List Char → List (List Char) → List (List Char) × List Char
  | 0, _, current_chunk, chunks => (chunks, current_chunk)
  | _ + 1, [], current_chunk, chunks => (chunks, current_chunk)
  | fuel + 1, c :: rest, current_chunk, chunks =>
    if is_terminator c then
      let r := absorb_closers (current_chunk ++ [c]) rest
      scan fuel r.2 [] (push_trimmed chunks r.1)
    else
      scan fuel rest (current_chunk ++ [c]) chunks

/-- `TextToSpeech::split_into_chunks` (lines 515-567). -/
def split_into_chunks (text : List Char) : List (List Char) :=
  if text.isEmpty then []
  else
    let r := scan text.length text [] []
    let chunks := push_trimmed r.1 r.2
    if chunks.isEmpty && !(strip_edges text).isEmpty then chunks ++ [strip_edges text]
    else chunks

/-- The loop run on the text that is left, with exactly the bound that
`split_into_chunks` gives it. -/
def scan_all (rest cur : List Char) (chunks : List (List Char)) : List (List Char) × List Char :=
  scan rest.length rest cur chunks

/-! ## Vocabulary of the chunker claims -/

/-- A chunk as `split_into_chunks` stores it: not empty and with nothing left
to strip at either end. -/
def Trimmed (c : List Char) : Prop :=
  c ≠ [] ∧ strip_edges c = c ∧
    (∀ a, c.head? = some a → is_whitespace a = false) ∧
    (∀ a, c.getLast? = some a → is_whitespace a = false)

/-- The text `w0 ++ c1 ++ w1 ++ c2 ++ ... ++ cn ++ wn`, given the gaps
`[w0, ..., w(n-1)]`, the chunks `[c1, ..., cn]` and the last gap `wn`. -/
def weave (gaps chunks : List (List Char)) (last : List Char) : List Char :=
  (List.zipWith (fun w c => w ++ c) gaps chunks).flatten ++ last

/-- `pre` is the chunks in order, separated and surrounded by whitespace. -/
def Woven (pre : List Char) (chunks : List (List Char)) : Prop :=
  ∃ (gaps : List (List Char)) (last : List Char),
    gaps.length = chunks.length ∧
    (∀ g ∈ gaps, ∀ c ∈ g, is_whitespace c = true) ∧
    (∀ c ∈ last, is_whitespace c = true) ∧
    pre = weave gaps chunks last

/-- A sentence in the sense of C2: a run of characters, one terminator, and
the closers that follow it. -/
structure Sentence where
  body : List Char
  terminator : Char
  closers : List Char
  deriving DecidableEq, Repr

/-- The characters of a sentence. -/
def Sentence.text (s : Sentence) : List Char := s.body ++ [s.terminator] ++ s.closers

/-- The conditions C2 puts on a sentence: no terminator in the body, a
character that is not whitespace in the body, no closer at the start of the
body, a terminator, then closers only. -/
def Sentence.well_formed (s : Sentence) : Prop :=
  (∀ c ∈ s.body, is_terminator c = false) ∧
  (∃ c ∈ s.body, is_whitespace c = false) ∧
  (∀ c, s.body.head? = some c → is_closer c = false) ∧
  is_terminator s.terminator = true ∧
  (∀ c ∈ s.closers, is_closer c = true)

/-- The text after the last terminator, or `none` for a text without
terminator. -/
def after_last_terminator : List Char → Option (List Char)
  | [] => none
  | c :: rest =>
    match after_last_terminator rest with
    | some tail => some tail
    | none => if is_terminator c then some rest else none

/-- The part of the text after the last terminator and the closers directly
following it; the whole text if there is no terminator. -/
def tail_part (text : List Char) : List Char :=
  match after_last_terminator text with
  | some tail => tail.dropWhile is_closer
  | none => text

/-- The text has a character that is not whitespace. -/
def has_content (s : List Char) : Bool := s.any (fun c => !is_whitespace c)

/-- What the buffer will be when the loop ends, seen from the middle of the
scan. -/
def residue (cur rest : List Char) : List Char :=
  match after_last_terminator rest with
  | some tail => tail.dropWhile is_closer
  | none => cur ++ rest

/-! ## Asynchronous pipeline: data -/

/-- `struct TTSRequest` (header, lines 21-26). -/
structure TTSRequest (F : Type) where
  text : List Char
  speaker_id : Int
  speed : F
  request_id : Nat
  deriving DecidableEq, Repr

/-- `struct TTSResult` (header, lines 29-34). -/
structure TTSResult (A : Type) where
  audio : Option A
  request_id : Nat
  success : Bool
  error_message : List Char
  deriving DecidableEq, Repr

/-- `struct TTSChunk` (header, lines 37-45). -/
structure TTSChunk (F : Type) where
  text : List Char
  speaker_id : Int
  speed : F
  request_id : Nat
  chunk_index : Int
  total_chunks : Int
  is_streaming : Bool
  deriving DecidableEq, Repr

/-- `struct TTSChunkResult` (header, lines 48-55). -/
structure TTSChunkResult (A : Type) where
  audio : Option A
  request_id : Nat
  chunk_index : Int
  total_chunks : Int
  success : Bool
  error_message : List Char
  deriving DecidableEq, Repr

/-- The signals of the class (`_bind_methods`, lines 77-89) with their
arguments. -/
inductive Signal (A : Type) where
  | model_loaded
  | speech_generated (audio : Option A)
  | generation_started (request_id : Nat)
  | generation_completed (request_id : Nat) (audio : Option A)
  | generation_failed (request_id : Nat) (error : List Char)
  | chunk_ready (request_id : Nat) (chunk_index total_chunks : Int) (audio : Option A)
  | stream_completed (request_id : Nat)
  deriving DecidableEq, Repr

/-- The members of `class TextToSpeech` (header, lines 61-94) that the
pipeline reads or writes. `tts` records whether the engine pointer is
non-null. `deferred` collects the `call_deferred("emit_signal", ...)` calls,
oldest first. The threads, mutexes and the condition variable have no
counterpart: every operation below is one atomic step on this state. -/
structure State (F A : Type) where
  tts : Bool
  speaker_id : Int
  speed : F
  thread_running : Bool
  should_exit : Bool
  request_queue : List (TTSRequest F)
  result_queue : List (TTSResult A)
  next_request_id : Nat
  generation_in_progress : Bool
  chunk_queue : List (TTSChunk F)
  chunk_result_queue : List (TTSChunkResult A)
  deferred : List (Signal A)
  deriving DecidableEq, Repr

/-- The external engine call together with the conversion of its samples
(`SherpaOnnxOfflineTtsGenerate` and lines 266-306): text, speaker and speed
give an audio object, or `none` when the engine returns no samples. -/
abbrev Engine (F A : Type) := List Char → Int → F → Option A

/-- The object after the constructor (lines 92-97 and the member
initialisers of the header); `speed` is the float 1.0, given by the caller. -/
def State.init {F A : Type} (one : F) : State F A :=
  { tts := false, speaker_id := 0, speed := one, thread_running := false, should_exit := false,
    request_queue := [], result_queue := [], next_request_id := 1,
    generation_in_progress := false, chunk_queue := [], chunk_result_queue := [],
    deferred := [] }

section Pipeline

variable {F A : Type}

/-! ## Asynchronous pipeline: operations -/

/-- `TextToSpeech::start_worker_thread` (lines 109-115). -/
def start_worker_thread (st : State F A) : State F A :=
  if st.thread_running then st
  else { st with should_exit := false, thread_running := true }

/-- `next_request_id.fetch_add(1)` on a `uint64_t`: the old value is
returned, the counter wraps at `2 ^ 64`. -/
def fetch_add_request_id (st : State F A) : Nat × State F A :=
  (st.next_request_id, { st with next_request_id := (st.next_request_id + 1) % 2 ^ 64 })

/-- `TextToSpeech::speak_async` (lines 342-380): the returned id and the new
state. -/
def speak_async (st : State F A) (text : List Char) : Nat × State F A :=
  if !st.tts then (0, st)
  else if text.isEmpty then (0, st)
  else
    let st1 := if !st.thread_running then start_worker_thread st else st
    let r := fetch_add_request_id st1
    let request : TTSRequest F :=
      { text := text, speaker_id := r.2.speaker_id, speed := r.2.speed, request_id := r.1 }
    (r.1, { r.2 with request_queue := r.2.request_queue ++ [request],
                     deferred := r.2.deferred ++ [Signal.generation_started r.1] })

/-- The loop of lines 600-610, `count` iterations starting at index `i`:
chunk `i` is pushed at the back of the chunk queue. An `int` holds
`total_chunks` and `i` without overflow, the text having fewer than `2 ^ 31`
characters. -/
def push_chunks (chunks : List (List Char)) (speaker_id : Int) (speed : F) (request_id : Nat)
    (total_chunks : Int) : Nat → Nat → List (TTSChunk F) → List (TTSChunk F)
  | 0, _, queue => queue
  | count + 1, i, queue =>
    push_chunks chunks speaker_id speed request_id total_chunks count (i + 1)
      (queue ++ [{ text := chunks.getD i [], speaker_id := speaker_id, speed := speed,
                   request_id := request_id, chunk_index := (i : Int),
                   total_chunks := total_chunks, is_streaming := true }])

/-- `TextToSpeech::speak_streaming` (lines 570-626): the returned id and the
new state. -/
def speak_streaming (st : State F A) (text : List Char) : Nat × State F A :=
  if !st.tts then (0, st)
  else if text.isEmpty then (0, st)
  else
    let chunks := split_into_chunks text
    if chunks.isEmpty then (0, st)
    else
      let st1 := if !st.thread_running then start_worker_thread st else st
      let r := fetch_add_request_id st1
      let total_chunks : Int := (chunks.length : Int)
      (r.1, { r.2 with
                chunk_queue := push_chunks chunks r.2.speaker_id r.2.speed r.1 total_chunks
                  chunks.length 0 r.2.chunk_queue,
                deferred := r.2.deferred ++ [Signal.generation_started r.1] })

/-- What the worker holds after lines 390-410. -/
inductive Pulled (F : Type) where
  | exit
  | waiting
  | chunk (c : TTSChunk F)
  | request (r : TTSRequest F)
  deriving DecidableEq, Repr

/-- The block of lines 390-410: the wait on the condition variable, the
test of `should_exit`, and the pop. `waiting` is a thread that stays
suspended because the wait predicate is false. -/
def take_next (st : State F A) : Pulled F × State F A :=
  if !(st.should_exit || !st.request_queue.isEmpty || !st.chunk_queue.isEmpty) then
    (Pulled.waiting, st)
  else if st.should_exit then (Pulled.exit, st)
  else
    match st.chunk_queue with
    | c :: queue => (Pulled.chunk c, { st with chunk_queue := queue })
    | [] =>
      match st.request_queue with
      | r :: queue => (Pulled.request r, { st with request_queue := queue })
      | [] => (Pulled.waiting, st)

/-- `TextToSpeech::generate_audio_internal` (lines 252-307): no audio
without an engine, otherwise what the engine produces. -/
def generate_audio_internal (engine : Engine F A) (st : State F A) (text : List Char)
    (sid : Int) (spd : F) : Option A :=
  if !st.tts then none else engine text sid spd

/-- Lines 418-433: the result of a chunk, pushed on the chunk result
queue. -/
def process_chunk (engine : Engine F A) (chunk : TTSChunk F) (st : State F A) : State F A :=
  let audio := generate_audio_internal engine st chunk.text chunk.speaker_id chunk.speed
  let success := audio.isSome
  let result : TTSChunkResult A :=
    { audio := audio, request_id := chunk.request_id, chunk_index := chunk.chunk_index,
      total_chunks := chunk.total_chunks, success := success,
      error_message := if !success then "Failed to generate chunk audio".toList else [] }
  { st with chunk_result_queue := st.chunk_result_queue ++ [result] }

/-- Lines 436-449: the result of a request, pushed on the result queue. -/
def process_request (engine : Engine F A) (request : TTSRequest F) (st : State F A) :
    State F A :=
  let audio := generate_audio_internal engine st request.text request.speaker_id request.speed
  let success := audio.isSome
  let result : TTSResult A :=
    { audio := audio, request_id := request.request_id, success := success,
      error_message := if !success then "Failed to generate audio".toList else [] }
  { st with result_queue := st.result_queue ++ [result] }

/-- Lines 412-452 for the item the worker holds: the busy flag is set, the
result is produced and pushed, the busy flag is cleared. -/
def process_pulled (engine : Engine F A) (p : Pulled F) (st : State F A) : State F A :=
  match p with
  | Pulled.exit => st
  | Pulled.waiting => st
  | Pulled.chunk c =>
    { process_chunk engine c { st with generation_in_progress := true } with
      generation_in_progress := false }
  | Pulled.request r =>
    { process_request engine r { st with generation_in_progress := true } with
      generation_in_progress := false }

/-- One pass of the loop of `TextToSpeech::worker_thread_func` (lines
382-454); `engine` is what the engine does if it is called in this pass. -/
def worker_iteration (engine : Engine F A) (st : State F A) : State F A :=
  if st.should_exit then st
  else
    let p := take_next st
    process_pulled engine p.1 p.2

/-- The worker running for one pass per listed engine behaviour. -/
def worker_run (engines : List (Engine F A)) (st : State F A) : State F A :=
  engines.foldl (fun s e => worker_iteration e s) st

/-- The first loop of `process_pending_results` (lines 460-470): the signals
emitted, in order, and the queue that is left. -/
def drain_results : List (TTSResult A) → List (Signal A) × List (TTSResult A)
  | [] => ([], [])
  | result :: queue =>
    let emitted :=
      if result.success then
        [Signal.generation_completed result.request_id result.audio,
         Signal.speech_generated result.audio]
      else [Signal.generation_failed result.request_id result.error_message]
    (emitted ++ (drain_results queue).1, (drain_results queue).2)

/-- The second loop of `process_pending_results` (lines 473-488). -/
def drain_chunk_results : List (TTSChunkResult A) → List (Signal A) × List (TTSChunkResult A)
  | [] => ([], [])
  | result :: queue =>
    let emitted :=
      if result.success then
        [Signal.chunk_ready result.request_id result.chunk_index result.total_chunks result.audio]
          ++ (if result.chunk_index = result.total_chunks - 1 then
                [Signal.stream_completed result.request_id] else [])
      else [Signal.generation_failed result.request_id result.error_message]
    (emitted ++ (drain_chunk_results queue).1, (drain_chunk_results queue).2)

/-- `TextToSpeech::process_pending_results` (lines 456-489): the signals
emitted, in order, and the new state. -/
def process_pending_results (st : State F A) : List (Signal A) × State F A :=
  let r := drain_results st.result_queue
  let c := drain_chunk_results st.chunk_result_queue
  (r.1 ++ c.1, { st with result_queue := r.2, chunk_result_queue := c.2 })

/-- `TextToSpeech::is_generating` (lines 496-498). -/
def is_generating (st : State F A) : Bool :=
  st.generation_in_progress || !st.request_queue.isEmpty || !st.chunk_queue.isEmpty

/-- The loops `while (!queue.empty()) queue.pop();` of lines 504-509. -/
def pop_all {α : Type} : List α → List α
  | [] => []
  | _ :: queue => pop_all queue

/-- `TextToSpeech::cancel_generation` (lines 500-512). -/
def cancel_generation (st : State F A) : State F A :=
  { st with request_queue := pop_all st.request_queue, chunk_queue := pop_all st.chunk_queue }

/-- `TextToSpeech::stop_worker_thread` (lines 117-133): the flag is set, the
worker is woken and joined. -/
def stop_worker_thread (st : State F A) : State F A :=
  if !st.thread_running then st
  else { st with should_exit := true, thread_running := false }

/-- `TextToSpeech::set_speaker_id` (lines 628-630). -/
def set_speaker_id (st : State F A) (id : Int) : State F A := { st with speaker_id := id }

/-- `TextToSpeech::set_speed` (lines 636-638). -/
def set_speed (st : State F A) (s : F) : State F A := { st with speed := s }

/-! ## Vocabulary of the streaming claims -/

/-- The result the worker builds for a chunk (lines 418-427). -/
def chunk_result (tts : Bool) (engine : Engine F A) (c : TTSChunk F) : TTSChunkResult A :=
  { audio := if tts then engine c.text c.speaker_id c.speed else none,
    request_id := c.request_id, chunk_index := c.chunk_index, total_chunks := c.total_chunks,
    success := (if tts then engine c.text c.speaker_id c.speed else none).isSome,
    error_message :=
      if !(if tts then engine c.text c.speaker_id c.speed else none).isSome then
        "Failed to generate chunk audio".toList
      else [] }

/-- The signals the drain emits for one chunk result (lines 477-487). -/
def chunk_signals (result : TTSChunkResult A) : List (Signal A) :=
  if result.success then
    [Signal.chunk_ready result.request_id result.chunk_index result.total_chunks result.audio]
      ++ (if result.chunk_index = result.total_chunks - 1 then
            [Signal.stream_completed result.request_id] else [])
  else [Signal.generation_failed result.request_id result.error_message]

/-- The audio of pass `i`: the `i`-th listed engine behaviour on chunk `i`. -/
def stream_audio (engines : List (Engine F A)) (chunks : List (List Char)) (sid : Int)
    (spd : F) (i : Nat) : Option A :=
  (engines.getD i (fun _ _ _ => none)) (chunks.getD i []) sid spd

/-- The chunk result C9 expects for chunk `i` of `n` of request `r`. -/
def expected_chunk_result (r n i : Nat) (audio : Option A) : TTSChunkResult A :=
  { audio := audio, request_id := r, chunk_index := (i : Int), total_chunks := (n : Int),
    success := audio.isSome,
    error_message := if !audio.isSome then "Failed to generate chunk audio".toList else [] }

/-- The notifications C9 expects for chunk `i` of `n` of request `r`. -/
def expected_chunk_signals (r n i : Nat) (audio : Option A) : List (Signal A) :=
  match audio with
  | some a =>
    Signal.chunk_ready r (i : Int) (n : Int) (some a) ::
      (if i + 1 = n then [Signal.stream_completed r] else [])
  | none => [Signal.generation_failed r "Failed to generate chunk audio".toList]

/-- Recognises `stream_completed`. -/
def is_stream_completed : Signal A → Bool
  | Signal.stream_completed _ => true
  | _ => false

/-- The result the worker builds for a request (lines 436-443). -/
def request_result (tts : Bool) (engine : Engine F A) (r : TTSRequest F) : TTSResult A :=
  { audio := if tts then engine r.text r.speaker_id r.speed else none,
    request_id := r.request_id,
    success := (if tts then engine r.text r.speaker_id r.speed else none).isSome,
    error_message :=
      if !(if tts then engine r.text r.speaker_id r.speed else none).isSome then
        "Failed to generate audio".toList
      else [] }

/-- The signals the drain emits for one request result (lines 464-469). -/
def request_signals (result : TTSResult A) : List (Signal A) :=
  if result.success then
    [Signal.generation_completed result.request_id result.audio,
     Signal.speech_generated result.audio]
  else [Signal.generation_failed result.request_id result.error_message]

/-- A result the worker has pushed, of either kind. -/
inductive Finished (A : Type) where
  | request (result : TTSResult A)
  | chunk (result : TTSChunkResult A)
  deriving DecidableEq, Repr

/-- The request result of a finished result, if it is one. -/
def Finished.request? : Finished A → Option (TTSResult A)
  | Finished.request result => some result
  | Finished.chunk _ => none

/-- The chunk result of a finished result, if it is one. -/
def Finished.chunk? : Finished A → Option (TTSChunkResult A)
  | Finished.request _ => none
  | Finished.chunk result => some result

/-- What one worker pass pushes: the entries it adds behind the old contents
of the two result queues (at most one entry in all, see
`pass_pushed_length`). -/
def pass_pushed (engine : Engine F A) (st : State F A) : List (Finished A) :=
  ((worker_iteration engine st).result_queue.drop st.result_queue.length).map Finished.request
    ++ ((worker_iteration engine st).chunk_result_queue.drop
          st.chunk_result_queue.length).map Finished.chunk

/-- The results the worker pushes during a run, in the order it pushes
them. -/
def worker_log : List (Engine F A) → State F A → List (Finished A)
  | [], _ => []
  | engine :: engines, st =>
    pass_pushed engine st ++ worker_log engines (worker_iteration engine st)

/-- The result notification of a finished result: `generation_completed` or
`generation_failed` for a request, `chunk_ready` or `generation_failed` for a
chunk. -/
def result_notification : Finished A → Signal A
  | Finished.request result =>
    if result.success then Signal.generation_completed result.request_id result.audio
    else Signal.generation_failed result.request_id result.error_message
  | Finished.chunk result =>
    if result.success then
      Signal.chunk_ready result.request_id result.chunk_index result.total_chunks result.audio
    else Signal.generation_failed result.request_id result.error_message

/-- Recognises the result notifications among the signals. -/
def is_result_notification : Signal A → Bool
  | Signal.generation_completed _ _ => true
  | Signal.generation_failed _ _ => true
  | Signal.chunk_ready _ _ _ _ => true
  | _ => false

end Pipeline

/-! ## Sequences of calls -/

/-- A call on the object, or one pass of its worker. `load_model ok` stands
for `TextToSpeech::load_model` (lines 156-245) as far as the pipeline sees
it: afterwards the engine pointer is non-null exactly when the engine was
created. -/
inductive Op (F A : Type) where
  | speak_async (text : List Char)
  | speak_streaming (text : List Char)
  | cancel_generation
  | process_pending_results
  | worker_iteration (engine : Engine F A)
  | stop_worker_thread
  | set_speaker_id (id : Int)
  | set_speed (s : F)
  | load_model (ok : Bool)

/-- The effect of a call: the id it returns, for the two submitting calls,
and the new state. -/
def Op.step {F A : Type} (st : State F A) : Op F A → Option Nat × State F A
  | Op.speak_async text =>
    (some (TextToSpeech.speak_async st text).1, (TextToSpeech.speak_async st text).2)
  | Op.speak_streaming text =>
    (some (TextToSpeech.speak_streaming st text).1, (TextToSpeech.speak_streaming st text).2)
  | Op.cancel_generation => (none, TextToSpeech.cancel_generation st)
  | Op.process_pending_results => (none, (TextToSpeech.process_pending_results st).2)
  | Op.worker_iteration engine => (none, TextToSpeech.worker_iteration engine st)
  | Op.stop_worker_thread => (none, TextToSpeech.stop_worker_thread st)
  | Op.set_speaker_id id => (none, TextToSpeech.set_speaker_id st id)
  | Op.set_speed s => (none, TextToSpeech.set_speed st s)
  | Op.load_model ok => (none, { st with tts := ok })

/-- A submitting call is accepted when it passes every guard: a model is
loaded, the text is not empty and, for a streaming call, the chunker gives
at least one chunk. -/
def Op.accepted {F A : Type} (st : State F A) : Op F A → Bool
  | Op.speak_async text => st.tts && !text.isEmpty
  | Op.speak_streaming text => st.tts && !text.isEmpty && !(split_into_chunks text).isEmpty
  | _ => false

/-- The ids returned by the accepted calls of a sequence, in call order. -/
def issued_ids {F A : Type} : State F A → List (Op F A) → List Nat
  | _, [] => []
  | st, op :: ops =>
    (if op.accepted st then ((op.step st).1).toList else []) ++ issued_ids (op.step st).2 ops

/-- The state after a sequence of calls. -/
def run_ops {F A : Type} (st : State F A) (ops : List (Op F A)) : State F A :=
  ops.foldl (fun s op => (op.step s).2) st

/-! ## Sample inputs -/

/-- Three sentences, the second one closed by a bracket. -/
def sample_sentences : List Sentence :=
  [⟨"Hi there".toList, '!', []⟩, ⟨" (Is it".toList, '?', [')']⟩, ⟨" Yes".toList, '.', []⟩]

/-- An object with a loaded model and nothing queued; speeds and audio
objects are numbers here. -/
def sample_state : State Nat Nat := { State.init 1 with tts := true }

/-- Calls on `sample_state`: an accepted request, a rejected whitespace-only
stream, a worker pass, an accepted stream of two chunks, a cancel, a rejected
empty request and one more accepted request. -/
def sample_ops : List (Op Nat Nat) :=
  [Op.speak_async "Hi".toList, Op.speak_streaming " ".toList,
   Op.worker_iteration (fun _ _ _ => some 7), Op.speak_streaming "A. B.".toList,
   Op.cancel_generation, Op.speak_async [], Op.speak_async "Bye".toList]

/-- Five engine behaviours: the third one fails, the others succeed. -/
def sample_engines : List (Engine Nat Nat) :=
  [fun _ _ _ => some 10, fun _ _ _ => some 11, fun _ _ _ => none, fun _ _ _ => some 13,
   fun _ _ _ => some 14]

/-- A state with one request and two chunks queued, one result waiting, and
the worker idle. -/
def sample_busy_queue : State Nat Nat :=
  { sample_state with
    thread_running := true
    next_request_id := 4
    request_queue := [{ text := "Hi".toList, speaker_id := 0, speed := 1, request_id := 2 }]
    chunk_queue :=
      [{ text := "A.".toList, speaker_id := 0, speed := 1, request_id := 3, chunk_index := 0,
         total_chunks := 2, is_streaming := true },
       { text := "B.".toList, speaker_id := 0, speed := 1, request_id := 3, chunk_index := 1,
         total_chunks := 2, is_streaming := true }]
    result_queue := [{ audio := some 5, request_id := 1, success := true, error_message := [] }] }

/-- The state `sample_busy_queue` at the moment a stop has been requested:
the shutdown flag is set while three items are still queued. -/
def sample_stopping : State Nat Nat := { sample_busy_queue with should_exit := true }

/-- One chunk and one request queued, no result waiting. -/
def sample_mixed_queue : State Nat Nat :=
  { sample_state with
    thread_running := true
    next_request_id := 4
    request_queue := [{ text := "Hi".toList, speaker_id := 0, speed := 1, request_id := 2 }]
    chunk_queue :=
      [{ text := "A.".toList, speaker_id := 0, speed := 1, request_id := 3, chunk_index := 0,
         total_chunks := 1, is_streaming := true }] }

/-- The state after a request and then a one-chunk stream have been
submitted on `sample_state`, before the worker has run. -/
def sample_submitted : State Nat Nat :=
  (speak_streaming (speak_async sample_state "Hi".toList).2 "A.".toList).2

/-! ## Facts about `strip_edges` -/

theorem strip_edges_eq_nil_iff (s : List Char) :
    strip_edges s = [] ↔ ∀ c ∈ s, is_whitespace c = true := by
  unfold strip_edges
  rw [List.rdropWhile_eq_nil_iff]
  constructor
  · intro h
    have h2 : s.dropWhile is_whitespace = [] := by
      cases hd : s.dropWhile is_whitespace with
      | nil => rfl
      | cons a l =>
        have := List.head_dropWhile_not is_whitespace s (by simp [hd])
        simp [hd] at this
        have ha := h a (by simp [hd])
        simp [this] at ha
    exact (List.dropWhile_eq_nil_iff).1 h2
  · intro h
    rw [(List.dropWhile_eq_nil_iff).2 h]
    simp

theorem strip_edges_decomp (s : List Char) :
    ∃ l r : List Char, (∀ c ∈ l, is_whitespace c = true) ∧ (∀ c ∈ r, is_whitespace c = true) ∧
      s = l ++ strip_edges s ++ r := by
  refine ⟨s.takeWhile is_whitespace, (s.dropWhile is_whitespace).rtakeWhile is_whitespace,
    fun c hc => List.mem_takeWhile_imp hc, fun c hc => List.mem_rtakeWhile_imp hc, ?_⟩
  have h1 : (s.dropWhile is_whitespace).rdropWhile is_whitespace
      ++ (s.dropWhile is_whitespace).rtakeWhile is_whitespace = s.dropWhile is_whitespace := by
    simp only [List.rdropWhile, List.rtakeWhile]
    rw [← List.reverse_append, List.takeWhile_append_dropWhile, List.reverse_reverse]
  unfold strip_edges
  rw [List.append_assoc, h1, List.takeWhile_append_dropWhile]

theorem dropWhile_self_of_head (p : Char → Bool) (l : List Char)
    (h : ∀ c, l.head? = some c → p c = false) : l.dropWhile p = l := by
  cases l with
  | nil => rfl
  | cons a l => simp [List.dropWhile_cons, h a rfl]

theorem strip_edges_head (s : List Char) (c : Char) (h : (strip_edges s).head? = some c) :
    is_whitespace c = false := by
  unfold strip_edges at h
  have hp : (s.dropWhile is_whitespace).rdropWhile is_whitespace <+: s.dropWhile is_whitespace :=
    List.rdropWhile_prefix _ _
  obtain ⟨t, ht⟩ := hp
  cases hd : (s.dropWhile is_whitespace).rdropWhile is_whitespace with
  | nil => simp [hd] at h
  | cons a l =>
    rw [hd] at h ht
    simp at h
    subst h
    have hne : s.dropWhile is_whitespace ≠ [] := by rw [← ht]; simp
    have := List.head_dropWhile_not is_whitespace s hne
    simp [← ht] at this
    exact this

theorem strip_edges_getLast (s : List Char) (c : Char) (h : (strip_edges s).getLast? = some c) :
    is_whitespace c = false := by
  have hne : strip_edges s ≠ [] := by
    intro h0; rw [h0] at h; simp at h
  have := List.rdropWhile_last_not is_whitespace (s.dropWhile is_whitespace) hne
  rw [List.getLast?_eq_getLast _ hne] at h
  simp only [Option.some.injEq] at h
  unfold strip_edges at h
  rw [h] at this
  simpa using this

theorem strip_edges_fixed (s : List Char)
    (hh : ∀ c, s.head? = some c → is_whitespace c = false)
    (hl : ∀ c, s.getLast? = some c → is_whitespace c = false) : strip_edges s = s := by
  unfold strip_edges
  rw [dropWhile_self_of_head _ _ hh, List.rdropWhile_eq_self_iff]
  intro hne
  have := hl (s.getLast hne) (List.getLast?_eq_getLast _ hne)
  simp [this]

theorem strip_edges_idem (s : List Char) : strip_edges (strip_edges s) = strip_edges s :=
  strip_edges_fixed _ (strip_edges_head s) (strip_edges_getLast s)

/-! ## The scanning loop -/

theorem absorb_closers_eq (cur rest : List Char) :
    absorb_closers cur rest = (cur ++ rest.takeWhile is_closer, rest.dropWhile is_closer) := by
  induction rest generalizing cur with
  | nil => simp [absorb_closers]
  | cons a l ih =>
    by_cases h : is_closer a = true
    · simp [absorb_closers, h, ih]
    · simp [absorb_closers, h]

theorem absorb_closers_length (cur rest : List Char) :
    (absorb_closers cur rest).2.length ≤ rest.length := by
  rw [absorb_closers_eq]
  exact (List.dropWhile_suffix _).length_le

/-- The iteration bound never cuts the loop short: with a bound of at least
the number of characters left, the result does not depend on the bound. -/
theorem scan_fuel (f g : Nat) (rest cur : List Char) (chunks : List (List Char))
    (hf : rest.length ≤ f) (hg : rest.length ≤ g) :
    scan f rest cur chunks = scan g rest cur chunks := by
  induction f generalizing g rest cur chunks with
  | zero =>
    have : rest = [] := List.length_eq_zero.1 (Nat.le_zero.1 hf)
    subst this
    cases g <;> simp [scan]
  | succ f ih =>
    cases rest with
    | nil => cases g <;> simp [scan]
    | cons c rest =>
      cases g with
      | zero => simp at hg
      | succ g =>
        simp only [List.length_cons, Nat.add_le_add_iff_right] at hf hg
        simp only [scan]
        split
        · have hl := absorb_closers_length (cur ++ [c]) rest
          exact ih g _ _ _ (le_trans hl hf) (le_trans hl hg)
        · exact ih g _ _ _ hf hg

theorem scan_all_nil (cur : List Char) (chunks : List (List Char)) :
    scan_all [] cur chunks = (chunks, cur) := by
  simp [scan_all, scan]

theorem scan_all_cons (c : Char) (rest cur : List Char) (chunks : List (List Char)) :
    scan_all (c :: rest) cur chunks =
      if is_terminator c then
        scan_all (rest.dropWhile is_closer) []
          (push_trimmed chunks (cur ++ [c] ++ rest.takeWhile is_closer))
      else scan_all rest (cur ++ [c]) chunks := by
  simp only [scan_all, List.length_cons, scan, absorb_closers_eq]
  split
  · exact scan_fuel _ _ _ _ _ (List.dropWhile_suffix _).length_le le_rfl
  · rfl

theorem split_into_chunks_eq (text : List Char) :
    split_into_chunks text =
      if text.isEmpty then []
      else
        let chunks := push_trimmed (scan_all text [] []).1 (scan_all text [] []).2
        if chunks.isEmpty && !(strip_edges text).isEmpty then chunks ++ [strip_edges text]
        else chunks := rfl

/-- Without a terminator the loop only fills the buffer. -/
theorem scan_all_no_terminator (rest cur : List Char) (chunks : List (List Char))
    (h : ∀ c ∈ rest, is_terminator c = false) :
    scan_all rest cur chunks = (chunks, cur ++ rest) := by
  induction rest generalizing cur with
  | nil => simp [scan_all_nil]
  | cons a l ih =>
    rw [scan_all_cons, h a (by simp)]
    simp only [Bool.false_eq_true, if_false]
    rw [ih _ (fun c hc => h c (by simp [hc]))]
    simp

theorem terminator_not_whitespace (c : Char) (h : is_terminator c = true) :
    is_whitespace c = false := by
  simp only [is_terminator, Bool.or_eq_true, beq_iff_eq] at h
  rcases h with (h | h) | h <;> subst h <;> decide

/-- Invariant rule for the loop: a property of (text left, buffer, chunks)
that every iteration keeps holds when the loop ends. -/
theorem scan_all_invariant (I : List Char → List Char → List (List Char) → Prop)
    (hterm : ∀ c rest cur chunks, is_terminator c = true → I (c :: rest) cur chunks →
      I (rest.dropWhile is_closer) [] (push_trimmed chunks (cur ++ [c] ++ rest.takeWhile is_closer)))
    (hother : ∀ c rest cur chunks, is_terminator c = false → I (c :: rest) cur chunks →
      I rest (cur ++ [c]) chunks)
    (rest cur : List Char) (chunks : List (List Char)) (h : I rest cur chunks) :
    I [] (scan_all rest cur chunks).2 (scan_all rest cur chunks).1 := by
  generalize hn : rest.length = n
  induction n using Nat.strong_induction_on generalizing rest cur chunks with
  | _ n ih =>
    cases rest with
    | nil => simpa [scan_all_nil] using h
    | cons c rest =>
      rw [scan_all_cons]
      by_cases hc : is_terminator c = true
      · simp only [hc, if_true]
        refine ih (rest.dropWhile is_closer).length ?_ _ _ _ (hterm c rest cur chunks hc h) rfl
        have := (List.dropWhile_suffix is_closer (l := rest)).length_le
        simp only [List.length_cons] at hn
        omega
      · have hc2 : is_terminator c = false := by simpa using hc
        simp only [hc2, Bool.false_eq_true, if_false]
        refine ih rest.length ?_ _ _ _ (hother c rest cur chunks hc2 h) rfl
        simp only [List.length_cons] at hn
        omega

/-! ## Claims about `split_into_chunks` -/

/-- C1, as stated, fails: the one-space text is non-empty and has no
terminator, yet `split_into_chunks` returns no chunk for it. -/
theorem C1_counterexample :
    [' '] ≠ ([] : List Char) ∧ (∀ c ∈ [' '], is_terminator c = false) ∧
      split_into_chunks [' '] = [] ∧ split_into_chunks [' '] ≠ [strip_edges [' ']] := by
  decide

/-- C1, amended: for every text without `.`, `!`, `?` that has at least one
character that is not whitespace, `split_into_chunks` returns exactly one
chunk, the input with its leading and trailing whitespace stripped. -/
theorem C1_single_chunk (text : List Char)
    (hne : ∃ c ∈ text, is_whitespace c = false)
    (hno : ∀ c ∈ text, is_terminator c = false) :
    split_into_chunks text = [strip_edges text] := by
  have hs : strip_edges text ≠ [] := by
    intro h0
    obtain ⟨c, hc, hw⟩ := hne
    have := (strip_edges_eq_nil_iff text).1 h0 c hc
    simp [hw] at this
  have ht : text ≠ [] := by
    obtain ⟨c, hc, _⟩ := hne
    exact List.ne_nil_of_mem hc
  rw [split_into_chunks_eq, scan_all_no_terminator _ _ _ hno]
  simp [ht, push_trimmed, hs]

/-- C1 (amended) on a text with spaces at both ends and no terminator. -/
theorem C1_single_chunk_witness :
    split_into_chunks " hello world ".toList = [strip_edges " hello world ".toList] ∧
      strip_edges " hello world ".toList = "hello world".toList :=
  ⟨C1_single_chunk " hello world ".toList (by decide) (by decide), by decide⟩

/-- C3: a text that is empty or made of whitespace only gives no chunk. -/
theorem C3_whitespace_only (text : List Char)
    (hws : ∀ c ∈ text, is_whitespace c = true) :
    split_into_chunks text = [] := by
  have hs : strip_edges text = [] := (strip_edges_eq_nil_iff text).2 hws
  have hno : ∀ c ∈ text, is_terminator c = false := by
    intro c hc
    by_contra h
    have := terminator_not_whitespace c (by simpa using h)
    simp [hws c hc] at this
  rw [split_into_chunks_eq, scan_all_no_terminator _ _ _ hno]
  simp [push_trimmed, hs]

/-- C3 on the empty text and on a text of spaces, a tab and a line feed. -/
theorem C3_whitespace_only_witness :
    split_into_chunks [] = [] ∧ split_into_chunks [' ', '\t', '\n', ' '] = [] :=
  ⟨C3_whitespace_only [] (by decide), C3_whitespace_only [' ', '\t', '\n', ' '] (by decide)⟩

theorem trimmed_strip_edges (b : List Char) (h : strip_edges b ≠ []) : Trimmed (strip_edges b) :=
  ⟨h, strip_edges_idem b, strip_edges_head b, strip_edges_getLast b⟩

theorem push_trimmed_all (chunks : List (List Char)) (b : List Char)
    (h : ∀ c ∈ chunks, Trimmed c) : ∀ c ∈ push_trimmed chunks b, Trimmed c := by
  intro c hc
  unfold push_trimmed at hc
  split at hc
  · exact h c hc
  · rename_i hb
    rcases List.mem_append.1 hc with hc | hc
    · exact h c hc
    · simp only [List.mem_singleton] at hc
      subst hc
      exact trimmed_strip_edges b (by simpa using hb)

/-- C4: every chunk returned by `split_into_chunks` is non-empty and already
trimmed: `strip_edges` leaves it unchanged, and neither its first nor its
last character is whitespace. -/
theorem C4_chunks_trimmed (text : List Char) :
    ∀ c ∈ split_into_chunks text,
      c ≠ [] ∧ strip_edges c = c ∧
        (∀ a, c.head? = some a → is_whitespace a = false) ∧
        (∀ a, c.getLast? = some a → is_whitespace a = false) := by
  have hscan : ∀ c ∈ (scan_all text [] []).1, Trimmed c :=
    scan_all_invariant (fun _ _ chunks => ∀ c ∈ chunks, Trimmed c)
      (fun _ _ _ chunks _ h => push_trimmed_all chunks _ h)
      (fun _ _ _ _ _ h => h) text [] [] (by simp)
  have hpush := push_trimmed_all _ (scan_all text [] []).2 hscan
  intro c hc
  rw [split_into_chunks_eq] at hc
  split at hc
  · simp at hc
  · simp only at hc
    split at hc
    · rename_i hcond
      simp only [Bool.and_eq_true, Bool.not_eq_true', List.isEmpty_eq_true] at hcond
      rcases List.mem_append.1 hc with hc | hc
      · exact hpush c hc
      · simp only [List.mem_singleton] at hc
        subst hc
        exact trimmed_strip_edges text (by
          intro h0; rw [h0] at hcond; simp at hcond)
    · exact hpush c hc

/-- C4 on the second chunk of a two-sentence text with surrounding spaces. -/
theorem C4_chunks_trimmed_witness :
    "Then left.".toList ∈ split_into_chunks "  Hi there!  Then left. ".toList ∧
      ("Then left.".toList ≠ [] ∧ strip_edges "Then left.".toList = "Then left.".toList ∧
        (∀ a, "Then left.".toList.head? = some a → is_whitespace a = false) ∧
        (∀ a, "Then left.".toList.getLast? = some a → is_whitespace a = false)) :=
  ⟨by decide, C4_chunks_trimmed "  Hi there!  Then left. ".toList _ (by decide)⟩

theorem woven_nil : Woven [] [] := ⟨[], [], rfl, by simp, by simp, rfl⟩

theorem woven_push (pre b : List Char) (chunks : List (List Char)) (h : Woven pre chunks) :
    Woven (pre ++ b) (push_trimmed chunks b) := by
  obtain ⟨gaps, last, hlen, hg, hl, hpre⟩ := h
  unfold push_trimmed
  split
  · rename_i hb
    have hb2 := (strip_edges_eq_nil_iff b).1 (by simpa using hb)
    refine ⟨gaps, last ++ b, hlen, hg, ?_, ?_⟩
    · intro c hc
      rcases List.mem_append.1 hc with hc | hc
      · exact hl c hc
      · exact hb2 c hc
    · rw [hpre]; simp [weave]
  · obtain ⟨l, r, hlw, hrw, hb⟩ := strip_edges_decomp b
    refine ⟨gaps ++ [last ++ l], r, by simp [hlen], ?_, hrw, ?_⟩
    · intro g hg2 c hc
      rcases List.mem_append.1 hg2 with hg2 | hg2
      · exact hg g hg2 c hc
      · simp only [List.mem_singleton] at hg2
        subst hg2
        rcases List.mem_append.1 hc with hc | hc
        · exact hl c hc
        · exact hlw c hc
    · have hz := List.zipWith_append (fun (w c : List Char) => w ++ c) gaps [last ++ l]
        chunks [strip_edges b] hlen
      simp only [weave, hz, List.flatten_append]
      rw [hpre]
      conv_lhs => rw [hb]
      simp [weave]

theorem woven_empty_chunks (pre : List Char) (h : Woven pre []) : strip_edges pre = [] := by
  obtain ⟨gaps, last, hlen, _, hl, hpre⟩ := h
  have : gaps = [] := List.length_eq_zero.1 (by simpa using hlen)
  subst this
  rw [strip_edges_eq_nil_iff, hpre]
  simpa [weave] using hl

theorem split_into_chunks_woven (text : List Char) : Woven text (split_into_chunks text) := by
  have hscan := scan_all_invariant
    (fun rest cur chunks => ∃ pre, Woven pre chunks ∧ pre ++ cur ++ rest = text)
    (by
      rintro c rest cur chunks _ ⟨pre, hw, he⟩
      refine ⟨pre ++ (cur ++ [c] ++ rest.takeWhile is_closer), woven_push _ _ _ hw, ?_⟩
      rw [← he]
      simp)
    (by
      rintro c rest cur chunks _ ⟨pre, hw, he⟩
      exact ⟨pre, hw, by rw [← he]; simp⟩)
    text [] [] ⟨[], woven_nil, by simp⟩
  obtain ⟨pre, hw, he⟩ := hscan
  have hfin : Woven text (push_trimmed (scan_all text [] []).1 (scan_all text [] []).2) := by
    have := woven_push pre (scan_all text [] []).2 _ hw
    rw [List.append_nil] at he
    rw [he] at this
    exact this
  rw [split_into_chunks_eq]
  split
  · rename_i ht
    have : text = [] := by simpa using ht
    subst this
    exact woven_nil
  · simp only
    split
    · rename_i hcond
      simp only [Bool.and_eq_true, Bool.not_eq_true', List.isEmpty_eq_true] at hcond
      rw [hcond.1] at hfin
      have := woven_empty_chunks text hfin
      rw [this] at hcond
      simp at hcond
    · exact hfin

/-- C5: the input is `w0 ++ c1 ++ w1 ++ c2 ++ ... ++ cn ++ wn`, where
`[c1, ..., cn]` are the chunks returned by `split_into_chunks`, in order, and
every `wi` is made of whitespace only. -/
theorem C5_chunks_cover_text (text : List Char) :
    ∃ (gaps : List (List Char)) (last : List Char),
      gaps.length = (split_into_chunks text).length ∧
      (∀ g ∈ gaps, ∀ c ∈ g, is_whitespace c = true) ∧
      (∀ c ∈ last, is_whitespace c = true) ∧
      text = weave gaps (split_into_chunks text) last :=
  split_into_chunks_woven text

theorem sample_sentences_well_formed : ∀ s ∈ sample_sentences, s.well_formed := by
  intro s hs
  simp only [sample_sentences, List.mem_cons, List.mem_singleton, List.not_mem_nil, or_false] at hs
  rcases hs with rfl | rfl | rfl
  · exact ⟨by decide, ⟨'H', by decide, by decide⟩, by simp; decide, by decide, by decide⟩
  · exact ⟨by decide, ⟨'I', by decide, by decide⟩, by simp; decide, by decide, by decide⟩
  · exact ⟨by decide, ⟨'Y', by decide, by decide⟩, by simp; decide, by decide, by decide⟩

theorem scan_all_append_no_terminator (body rest cur : List Char) (chunks : List (List Char))
    (h : ∀ c ∈ body, is_terminator c = false) :
    scan_all (body ++ rest) cur chunks = scan_all rest (cur ++ body) chunks := by
  induction body generalizing cur with
  | nil => simp
  | cons a l ih =>
    rw [List.cons_append, scan_all_cons, h a (by simp)]
    simp only [Bool.false_eq_true, if_false]
    rw [ih _ (fun c hc => h c (by simp [hc]))]
    simp

theorem sentence_strip_ne_nil (s : Sentence) (hs : s.well_formed) :
    strip_edges s.text ≠ [] := by
  intro h0
  obtain ⟨c, hc, hw⟩ := hs.2.1
  have := (strip_edges_eq_nil_iff s.text).1 h0 c (by simp [Sentence.text, hc])
  simp [hw] at this

theorem scan_all_sentence (s : Sentence) (hs : s.well_formed) (rest : List Char)
    (chunks : List (List Char)) (hrest : ∀ c, rest.head? = some c → is_closer c = false) :
    scan_all (s.text ++ rest) [] chunks = scan_all rest [] (chunks ++ [strip_edges s.text]) := by
  have hne := sentence_strip_ne_nil s hs
  obtain ⟨hbody, _, _, hterm, hclo⟩ := hs
  have e1 : s.text ++ rest = s.body ++ (s.terminator :: (s.closers ++ rest)) := by
    simp [Sentence.text]
  rw [e1, scan_all_append_no_terminator _ _ _ _ hbody, scan_all_cons, hterm]
  simp only [if_true]
  have hd : (s.closers ++ rest).dropWhile is_closer = rest := by
    rw [List.dropWhile_append_of_pos hclo, dropWhile_self_of_head _ _ hrest]
  have ht : (s.closers ++ rest).takeWhile is_closer = s.closers := by
    have h2 := List.takeWhile_append_dropWhile is_closer (s.closers ++ rest)
    rw [hd] at h2
    exact List.append_cancel_right h2
  rw [hd, ht]
  have e2 : [] ++ s.body ++ [s.terminator] ++ s.closers = s.text := by simp [Sentence.text]
  rw [e2]
  simp [push_trimmed, hne]

theorem sentences_head (ss : List Sentence) (hs : ∀ s ∈ ss, s.well_formed) :
    ∀ c, ((ss.map Sentence.text).flatten).head? = some c → is_closer c = false := by
  cases ss with
  | nil => simp
  | cons s l =>
    intro c hc
    obtain ⟨_, ⟨a, ha, _⟩, hhead, _, _⟩ := hs s (by simp)
    cases hb : s.body with
    | nil => rw [hb] at ha; simp at ha
    | cons b t =>
      simp [Sentence.text, hb] at hc
      exact hhead c (by simp [hb, hc])

theorem scan_all_sentences (ss : List Sentence) (hs : ∀ s ∈ ss, s.well_formed)
    (chunks : List (List Char)) :
    scan_all ((ss.map Sentence.text).flatten) [] chunks
      = (chunks ++ ss.map (fun s => strip_edges s.text), []) := by
  induction ss generalizing chunks with
  | nil => simp [scan_all_nil]
  | cons s l ih =>
    simp only [List.map_cons, List.flatten_cons]
    rw [scan_all_sentence s (hs s (by simp)) _ _
      (sentences_head l (fun t ht => hs t (by simp [ht]))),
      ih (fun t ht => hs t (by simp [ht]))]
    simp

/-- C2: for a text that is the concatenation of N sentences (each a body
without terminator that has a character that is not whitespace and does not
start with a closer, then one terminator, then closers), `split_into_chunks`
returns exactly N chunks, the i-th being the i-th sentence with its leading
and trailing whitespace stripped; every chunk is non-empty. -/
theorem C2_one_chunk_per_sentence (ss : List Sentence) (hN : 1 ≤ ss.length)
    (hs : ∀ s ∈ ss, s.well_formed) :
    split_into_chunks ((ss.map Sentence.text).flatten) = ss.map (fun s => strip_edges s.text) ∧
      (split_into_chunks ((ss.map Sentence.text).flatten)).length = ss.length ∧
      ∀ c ∈ split_into_chunks ((ss.map Sentence.text).flatten), c ≠ [] := by
  have key : split_into_chunks ((ss.map Sentence.text).flatten)
      = ss.map (fun s => strip_edges s.text) := by
    rw [split_into_chunks_eq, scan_all_sentences ss hs]
    cases ss with
    | nil => simp at hN
    | cons s l =>
      have : (s.text ++ (l.map Sentence.text).flatten).isEmpty = false := by
        simp [Sentence.text]
      simp [this, push_trimmed, strip_edges]
  refine ⟨key, by rw [key]; simp, ?_⟩
  rw [key]
  intro c hc
  obtain ⟨s, hsm, rfl⟩ := List.mem_map.1 hc
  exact sentence_strip_ne_nil s (hs s hsm)

/-- C2 on three sentences, one of them closed by a bracket. -/
theorem C2_one_chunk_per_sentence_witness :
    (sample_sentences.map Sentence.text).flatten = "Hi there! (Is it?) Yes.".toList ∧
    split_into_chunks "Hi there! (Is it?) Yes.".toList
      = ["Hi there!".toList, "(Is it?)".toList, "Yes.".toList] := by
  have h := (C2_one_chunk_per_sentence sample_sentences (by decide)
    sample_sentences_well_formed).1
  have e : (sample_sentences.map Sentence.text).flatten = "Hi there! (Is it?) Yes.".toList := by
    decide
  have e2 : sample_sentences.map (fun s => strip_edges s.text)
      = ["Hi there!".toList, "(Is it?)".toList, "Yes.".toList] := by decide
  rw [e, e2] at h
  exact ⟨e, h⟩

/-! ## Claims about the pipeline -/

section PipelineFacts

variable {F A : Type}

theorem speak_async_rejected (st : State F A) (text : List Char)
    (h : st.tts = false ∨ text = []) : speak_async st text = (0, st) := by
  rcases h with h | h
  · simp [speak_async, h]
  · subst h
    cases ht : st.tts <;> simp [speak_async, ht]

theorem speak_streaming_rejected (st : State F A) (text : List Char)
    (h : st.tts = false ∨ text = [] ∨ split_into_chunks text = []) :
    speak_streaming st text = (0, st) := by
  rcases h with h | h | h
  · simp [speak_streaming, h]
  · subst h
    cases ht : st.tts <;> simp [speak_streaming, ht]
  · cases ht : st.tts <;> cases hx : text.isEmpty <;> simp [speak_streaming, ht, hx, h]

theorem start_guard_next_request_id (st : State F A) :
    (if !st.thread_running then start_worker_thread st else st).next_request_id
      = st.next_request_id := by
  cases h : st.thread_running <;> simp [start_worker_thread, h]

theorem speak_async_accepted (st : State F A) (text : List Char)
    (htts : st.tts = true) (ht : text ≠ []) :
    (speak_async st text).1 = st.next_request_id ∧
      (speak_async st text).2.next_request_id = (st.next_request_id + 1) % 2 ^ 64 := by
  have hx : text.isEmpty = false := by simpa using ht
  simp only [speak_async, htts, hx, fetch_add_request_id, Bool.not_true, Bool.false_eq_true,
    if_false]
  exact ⟨start_guard_next_request_id st, by rw [start_guard_next_request_id st]⟩

theorem speak_streaming_accepted (st : State F A) (text : List Char)
    (htts : st.tts = true) (hc : split_into_chunks text ≠ []) :
    (speak_streaming st text).1 = st.next_request_id ∧
      (speak_streaming st text).2.next_request_id = (st.next_request_id + 1) % 2 ^ 64 := by
  have ht : text.isEmpty = false := by
    cases text with
    | nil => exact absurd rfl hc
    | cons a l => rfl
  have hc2 : (split_into_chunks text).isEmpty = false := by simpa using hc
  simp only [speak_streaming, htts, ht, hc2, fetch_add_request_id, Bool.not_true,
    Bool.false_eq_true, if_false]
  exact ⟨start_guard_next_request_id st, by rw [start_guard_next_request_id st]⟩

theorem worker_iteration_next_request_id (engine : Engine F A) (st : State F A) :
    (worker_iteration engine st).next_request_id = st.next_request_id := by
  unfold worker_iteration take_next
  cases st.should_exit <;> cases st.chunk_queue <;> cases st.request_queue <;>
    simp [process_pulled, process_chunk, process_request]

/-- A call that is not an accepted submission leaves the counter alone. -/
theorem step_next_request_id_of_not_accepted (st : State F A) (op : Op F A)
    (h : op.accepted st = false) : (op.step st).2.next_request_id = st.next_request_id := by
  cases op with
  | speak_async text =>
    have : st.tts = false ∨ text = [] := by
      simp only [Op.accepted, Bool.and_eq_false_imp] at h
      cases ht : st.tts
      · exact Or.inl rfl
      · exact Or.inr (by simpa using h ht)
    simp [Op.step, speak_async_rejected st text this]
  | speak_streaming text =>
    have : st.tts = false ∨ text = [] ∨ split_into_chunks text = [] := by
      cases ht : st.tts
      · exact Or.inl rfl
      · cases hx : text with
        | nil => exact Or.inr (Or.inl rfl)
        | cons a l =>
          simp [Op.accepted, ht, hx] at h
          exact Or.inr (Or.inr h)
    simp [Op.step, speak_streaming_rejected st text this]
  | cancel_generation => rfl
  | process_pending_results => rfl
  | worker_iteration engine => exact worker_iteration_next_request_id engine st
  | stop_worker_thread =>
    simp only [Op.step, stop_worker_thread]
    split <;> rfl
  | set_speaker_id id => rfl
  | set_speed s => rfl
  | load_model ok => rfl

/-- An accepted submission returns the counter and increments it. -/
theorem step_of_accepted (st : State F A) (op : Op F A) (h : op.accepted st = true) :
    (op.step st).1 = some st.next_request_id ∧
      (op.step st).2.next_request_id = (st.next_request_id + 1) % 2 ^ 64 := by
  cases op with
  | speak_async text =>
    simp only [Op.accepted, Bool.and_eq_true, Bool.not_eq_true', List.isEmpty_eq_false] at h
    have := speak_async_accepted st text h.1 (by simpa using h.2)
    simp [Op.step, this.1, this.2]
  | speak_streaming text =>
    simp only [Op.accepted, Bool.and_eq_true, Bool.not_eq_true'] at h
    have := speak_streaming_accepted st text h.1.1 (by simpa using h.2)
    simp [Op.step, this.1, this.2]
  | cancel_generation => simp [Op.accepted] at h
  | process_pending_results => simp [Op.accepted] at h
  | worker_iteration engine => simp [Op.accepted] at h
  | stop_worker_thread => simp [Op.accepted] at h
  | set_speaker_id id => simp [Op.accepted] at h
  | set_speed s => simp [Op.accepted] at h
  | load_model ok => simp [Op.accepted] at h

/-- While the counter does not wrap, the ids issued are consecutive. -/
theorem issued_ids_eq_range (ops : List (Op F A)) (st : State F A)
    (h : st.next_request_id + (issued_ids st ops).length ≤ 2 ^ 64) :
    issued_ids st ops = List.range' st.next_request_id (issued_ids st ops).length := by
  induction ops generalizing st with
  | nil => simp [issued_ids]
  | cons op ops ih =>
    cases hacc : op.accepted st
    · have hn := step_next_request_id_of_not_accepted st op hacc
      have e : issued_ids st (op :: ops) = issued_ids (op.step st).2 ops := by
        simp [issued_ids, hacc]
      rw [e] at h ⊢
      rw [← hn] at h ⊢
      exact ih _ h
    · obtain ⟨h1, h2⟩ := step_of_accepted st op hacc
      have e : issued_ids st (op :: ops)
          = st.next_request_id :: issued_ids (op.step st).2 ops := by
        simp [issued_ids, hacc, h1]
      rw [e] at h ⊢
      simp only [List.length_cons] at h ⊢
      have hle : (op.step st).2.next_request_id ≤ st.next_request_id + 1 := by
        rw [h2]; exact Nat.mod_le _ _
      have ih2 := ih (op.step st).2 (by omega)
      rw [List.range'_succ]
      congr 1
      by_cases hz : (issued_ids (op.step st).2 ops).length = 0
      · rw [hz]
        rw [List.length_eq_zero] at hz
        simp [hz]
      · have hlt : st.next_request_id + 1 < 2 ^ 64 := by omega
        rw [Nat.mod_eq_of_lt hlt] at h2
        rw [← h2]
        exact ih2

end PipelineFacts

/-- C6: on an object whose counter starts at 1, over any sequence of calls
with fewer than `2 ^ 64` accepted submissions, the ids returned by the
accepted `speak_async` and `speak_streaming` calls are 1, 2, 3, ... in call
order: strictly increasing, pairwise distinct and never the sentinel 0. A
call that is not an accepted submission leaves the counter unchanged. -/
theorem C6_request_ids_increasing {F A : Type} (st : State F A) (ops : List (Op F A))
    (hinit : st.next_request_id = 1)
    (hcount : (issued_ids st ops).length < 2 ^ 64) :
    issued_ids st ops = List.range' 1 (issued_ids st ops).length ∧
      (issued_ids st ops).Pairwise (fun a b => a < b) ∧
      (issued_ids st ops).Nodup ∧
      0 ∉ issued_ids st ops ∧
      (∀ (s : State F A) (op : Op F A), op.accepted s = false →
        (op.step s).2.next_request_id = s.next_request_id) := by
  have key := issued_ids_eq_range ops st (by rw [hinit]; omega)
  rw [hinit] at key
  refine ⟨key, ?_, ?_, ?_, step_next_request_id_of_not_accepted⟩
  · rw [key]
    exact List.pairwise_lt_range' 1 _
  · rw [key]
    exact List.nodup_range' 1 _
  · rw [key]
    simp only [List.mem_range', not_exists, not_and]
    intro i _
    omega

/-- C7: `speak_async` with no model loaded or with empty text, and
`speak_streaming` with no model loaded, with empty text or with a text that
gives no chunk, return 0 and leave the whole state as it was: the queues, the
result queues, the counter and the worker flags are unchanged. -/
theorem C7_rejected_calls_change_nothing {F A : Type} (st : State F A) (text : List Char) :
    ((st.tts = false ∨ text = []) → speak_async st text = (0, st)) ∧
    ((st.tts = false ∨ text = [] ∨ split_into_chunks text = []) →
      speak_streaming st text = (0, st)) :=
  ⟨speak_async_rejected st text, speak_streaming_rejected st text⟩

/-- C6 on a sequence with three accepted and two rejected submissions. -/
theorem C6_request_ids_increasing_witness :
    issued_ids sample_state sample_ops = [1, 2, 3] ∧
      (issued_ids sample_state sample_ops).Pairwise (fun a b => a < b) ∧
      0 ∉ issued_ids sample_state sample_ops := by
  have h := C6_request_ids_increasing sample_state sample_ops rfl (by decide)
  exact ⟨by decide, h.2.1, h.2.2.2.1⟩

/-- C7 on an empty text, on a whitespace-only stream and on an object
without a model. -/
theorem C7_rejected_calls_change_nothing_witness :
    speak_async sample_state [] = (0, sample_state) ∧
      speak_streaming sample_state " \t ".toList = (0, sample_state) ∧
      speak_async (State.init 1 : State Nat Nat) "Hi".toList = (0, State.init 1) :=
  ⟨(C7_rejected_calls_change_nothing sample_state []).1 (Or.inr rfl),
   (C7_rejected_calls_change_nothing sample_state " \t ".toList).2
     (Or.inr (Or.inr (by decide))),
   (C7_rejected_calls_change_nothing (State.init 1 : State Nat Nat) "Hi".toList).1
     (Or.inl rfl)⟩

section StreamingFacts

variable {F A : Type}

theorem push_chunks_eq (chunks : List (List Char)) (sid : Int) (spd : F) (rid : Nat)
    (total : Int) (count i : Nat) (queue : List (TTSChunk F)) :
    push_chunks chunks sid spd rid total count i queue
      = queue ++ (List.range' i count).map (fun j =>
          ({ text := chunks.getD j [], speaker_id := sid, speed := spd, request_id := rid,
             chunk_index := (j : Int), total_chunks := total, is_streaming := true } :
            TTSChunk F)) := by
  induction count generalizing i queue with
  | zero => simp [push_chunks]
  | succ k ih => simp [push_chunks, ih, List.range'_succ]

theorem map_getD_range (chunks : List (List Char)) :
    (List.range chunks.length).map (fun i => chunks.getD i []) = chunks := by
  apply List.ext_getElem
  · simp
  · intro i h1 h2
    simp [List.getElem?_eq_getElem h2]

/-- The state after an accepted `speak_streaming`. -/
theorem speak_streaming_state (st : State F A) (text : List Char)
    (htts : st.tts = true) (hc : split_into_chunks text ≠ []) :
    (speak_streaming st text).2 =
      { (if !st.thread_running then start_worker_thread st else st) with
        next_request_id := (st.next_request_id + 1) % 2 ^ 64,
        chunk_queue := st.chunk_queue ++
          (List.range (split_into_chunks text).length).map (fun i =>
            ({ text := (split_into_chunks text).getD i [], speaker_id := st.speaker_id,
               speed := st.speed, request_id := st.next_request_id, chunk_index := (i : Int),
               total_chunks := ((split_into_chunks text).length : Int),
               is_streaming := true } : TTSChunk F)),
        deferred := st.deferred ++ [Signal.generation_started st.next_request_id] } := by
  have ht : text.isEmpty = false := by
    cases text with
    | nil => exact absurd rfl hc
    | cons a l => rfl
  have hc2 : (split_into_chunks text).isEmpty = false := by simpa using hc
  simp only [speak_streaming, htts, ht, hc2, fetch_add_request_id, Bool.not_true,
    Bool.false_eq_true, if_false, push_chunks_eq, ← List.range_eq_range']
  cases h : st.thread_running <;> simp [start_worker_thread, h]

end StreamingFacts

/-- C8: an accepted `speak_streaming(text)` with n chunks and returned id r
leaves the request queue unchanged and appends exactly n items at the back of
the chunk queue, in order; the i-th has chunk_index i, total_chunks n,
request_id r, the i-th chunk as text and the current speaker and speed. -/
theorem C8_streaming_enqueues_chunks {F A : Type} (st : State F A) (text : List Char)
    (htts : st.tts = true) (hc : split_into_chunks text ≠ []) :
    (speak_streaming st text).2.request_queue = st.request_queue ∧
    (speak_streaming st text).2.chunk_queue = st.chunk_queue ++
      (List.range (split_into_chunks text).length).map (fun i =>
        ({ text := (split_into_chunks text).getD i [], speaker_id := st.speaker_id,
           speed := st.speed, request_id := (speak_streaming st text).1,
           chunk_index := (i : Int),
           total_chunks := ((split_into_chunks text).length : Int),
           is_streaming := true } : TTSChunk F)) ∧
    ((speak_streaming st text).2.chunk_queue.drop st.chunk_queue.length).length
      = (split_into_chunks text).length ∧
    ((speak_streaming st text).2.chunk_queue.drop st.chunk_queue.length).map TTSChunk.text
      = split_into_chunks text ∧
    ((speak_streaming st text).2.chunk_queue.drop st.chunk_queue.length).map TTSChunk.chunk_index
      = (List.range (split_into_chunks text).length).map (fun (i : Nat) => (i : Int)) := by
  have hr := (speak_streaming_accepted st text htts hc).1
  rw [hr, speak_streaming_state st text htts hc]
  refine ⟨?_, rfl, ?_, ?_, ?_⟩
  · cases h : st.thread_running <;> simp [start_worker_thread, h]
  · simp
  · simp only [List.drop_left, List.map_map]
    exact map_getD_range (split_into_chunks text)
  · simp only [List.drop_left, List.map_map]
    rfl

/-- C8 on a stream of two chunks. -/
theorem C8_streaming_enqueues_chunks_witness :
    (speak_streaming sample_state "One. Two!".toList).1 = 1 ∧
    (speak_streaming sample_state "One. Two!".toList).2.chunk_queue =
      [{ text := "One.".toList, speaker_id := 0, speed := 1, request_id := 1, chunk_index := 0,
         total_chunks := 2, is_streaming := true },
       { text := "Two!".toList, speaker_id := 0, speed := 1, request_id := 1, chunk_index := 1,
         total_chunks := 2, is_streaming := true }] := by
  have h := (C8_streaming_enqueues_chunks sample_state "One. Two!".toList rfl (by decide)).2.1
  have e : split_into_chunks "One. Two!".toList = ["One.".toList, "Two!".toList] := by decide
  have r : (speak_streaming sample_state "One. Two!".toList).1 = 1 := by decide
  rw [e, r] at h
  exact ⟨r, h⟩

section WorkerFacts

variable {F A : Type}

theorem take_next_chunk (st : State F A) (c : TTSChunk F) (queue : List (TTSChunk F))
    (hexit : st.should_exit = false) (hcq : st.chunk_queue = c :: queue) :
    take_next st = (Pulled.chunk c, { st with chunk_queue := queue }) := by
  unfold take_next
  rw [hcq]
  simp [hexit]

theorem worker_iteration_chunk (engine : Engine F A) (st : State F A) (c : TTSChunk F)
    (queue : List (TTSChunk F)) (hexit : st.should_exit = false)
    (hcq : st.chunk_queue = c :: queue) :
    worker_iteration engine st =
      { st with chunk_queue := queue,
                chunk_result_queue := st.chunk_result_queue ++ [chunk_result st.tts engine c],
                generation_in_progress := false } := by
  unfold worker_iteration
  rw [take_next_chunk st c queue hexit hcq]
  cases ht : st.tts <;>
    simp [hexit, process_pulled, process_chunk, generate_audio_internal, chunk_result, ht]

/-- The worker on a state whose chunk queue holds at least as many items as
there are passes: one chunk is taken and answered per pass, in queue order. -/
theorem worker_run_chunks (engines : List (Engine F A)) (st : State F A)
    (hexit : st.should_exit = false) (hbusy : st.generation_in_progress = false)
    (hlen : engines.length ≤ st.chunk_queue.length) :
    worker_run engines st =
      { st with chunk_queue := st.chunk_queue.drop engines.length,
                chunk_result_queue := st.chunk_result_queue ++
                  List.zipWith (chunk_result st.tts) engines st.chunk_queue } := by
  induction engines generalizing st with
  | nil => simp [worker_run]
  | cons e es ih =>
    cases hcq : st.chunk_queue with
    | nil => simp [hcq] at hlen
    | cons c queue =>
      have hlen2 : es.length ≤ queue.length := by simpa [hcq] using hlen
      simp only [worker_run, List.foldl_cons] at ih ⊢
      rw [worker_iteration_chunk e st c queue hexit hcq]
      rw [ih { st with chunk_queue := queue,
                       chunk_result_queue := st.chunk_result_queue ++ [chunk_result st.tts e c],
                       generation_in_progress := false } hexit rfl hlen2]
      simp [hbusy]

theorem drain_chunk_results_eq (queue : List (TTSChunkResult A)) :
    drain_chunk_results queue = ((queue.map chunk_signals).flatten, []) := by
  induction queue with
  | nil => rfl
  | cons a l ih => simp [drain_chunk_results, ih, chunk_signals]

theorem chunk_signals_expected (r n i : Nat) (audio : Option A) :
    chunk_signals (expected_chunk_result r n i audio) = expected_chunk_signals r n i audio := by
  have hi : ((i : Int) = (n : Int) - 1) ↔ i + 1 = n := by omega
  cases audio with
  | none => simp [chunk_signals, expected_chunk_result, expected_chunk_signals]
  | some a => simp [chunk_signals, expected_chunk_result, expected_chunk_signals, hi]

theorem filter_expected_of_ne (r n i : Nat) (audio : Option A) (h : i + 1 ≠ n) :
    (expected_chunk_signals r n i audio).filter is_stream_completed = [] := by
  cases audio <;> simp [expected_chunk_signals, is_stream_completed, h]

theorem filter_expected_last (r n : Nat) (audio : Option A) :
    (expected_chunk_signals r (n + 1) n audio).filter is_stream_completed
      = if audio.isSome then [Signal.stream_completed r] else [] := by
  cases audio <;> simp [expected_chunk_signals, is_stream_completed]

theorem filter_expected_flatten (r n : Nat) (audio : Nat → Option A) (m : Nat) (h : m < n) :
    (((List.range m).map (fun i => expected_chunk_signals r n i (audio i))).flatten).filter
      is_stream_completed = [] := by
  induction m with
  | zero => simp
  | succ k ih =>
    rw [List.range_succ, List.map_append, List.flatten_append, List.filter_append,
      ih (by omega)]
    simp [filter_expected_of_ne r n k (audio k) (by omega)]

end WorkerFacts

section StreamRunFacts

variable {F A : Type}

/-- The fields of the state right after an accepted `speak_streaming` on a
dispatcher with empty queues and no shutdown request. -/
theorem speak_streaming_on_idle (st : State F A) (text : List Char)
    (htts : st.tts = true) (hc : split_into_chunks text ≠ [])
    (hrq : st.request_queue = []) (hcq : st.chunk_queue = []) (hres : st.result_queue = [])
    (hcres : st.chunk_result_queue = []) (hbusy : st.generation_in_progress = false)
    (hexit : st.should_exit = false) :
    (speak_streaming st text).2.should_exit = false ∧
    (speak_streaming st text).2.generation_in_progress = false ∧
    (speak_streaming st text).2.tts = true ∧
    (speak_streaming st text).2.request_queue = [] ∧
    (speak_streaming st text).2.result_queue = [] ∧
    (speak_streaming st text).2.chunk_result_queue = [] ∧
    (speak_streaming st text).2.chunk_queue =
      (List.range (split_into_chunks text).length).map (fun i =>
        ({ text := (split_into_chunks text).getD i [], speaker_id := st.speaker_id,
           speed := st.speed, request_id := st.next_request_id, chunk_index := (i : Int),
           total_chunks := ((split_into_chunks text).length : Int),
           is_streaming := true } : TTSChunk F)) := by
  rw [speak_streaming_state st text htts hc]
  cases h : st.thread_running <;>
    simp [start_worker_thread, h, htts, hrq, hcq, hres, hcres, hbusy, hexit]

theorem zipWith_chunk_result (engines : List (Engine F A)) (chunks : List (List Char))
    (sid : Int) (spd : F) (r : Nat) (hlen : engines.length = chunks.length) :
    List.zipWith (chunk_result true) engines
        ((List.range chunks.length).map (fun i =>
          ({ text := chunks.getD i [], speaker_id := sid, speed := spd, request_id := r,
             chunk_index := (i : Int), total_chunks := (chunks.length : Int),
             is_streaming := true } : TTSChunk F)))
      = (List.range chunks.length).map (fun i =>
          expected_chunk_result r chunks.length i (stream_audio engines chunks sid spd i)) := by
  apply List.ext_getElem
  · simp [hlen]
  · intro i h1 h2
    have hi : i < engines.length := by simp at h1; omega
    have ha : stream_audio engines chunks sid spd i = engines[i] (chunks.getD i []) sid spd := by
      unfold stream_audio
      rw [List.getD_eq_getElem _ _ hi]
    rw [List.getElem_zipWith, List.getElem_map, List.getElem_map, List.getElem_range, ha]
    simp only [chunk_result, expected_chunk_result, if_true]

end StreamRunFacts

/-- C9: a streaming submission of n >= 1 chunks with id r on an idle
dispatcher (model loaded, all queues empty, worker not busy, no shutdown),
followed by n worker passes and a drain. After k <= n passes n - k chunks are
still queued, so the work queues are empty after exactly n passes. The chunk
result queue then holds exactly n results, all with request_id r and
total_chunks n, with chunk_index 0, 1, ..., n-1 in that order, the i-th
carrying the audio of chunk i; no request result exists. The drain emits the
notifications of chunks 0, ..., n-1 in that order and empties the result
queues; `stream_completed r` is emitted exactly once when the synthesis of
chunk n-1 succeeded, directly after the `chunk_ready` of chunk n-1 and as the
last signal, and not at all when it failed. -/
theorem C9_stream_results_in_order {F A : Type} (st st1 st2 : State F A) (text : List Char)
    (engines : List (Engine F A)) (chunks : List (List Char)) (n r : Nat)
    (htts : st.tts = true)
    (hrq : st.request_queue = []) (hcq : st.chunk_queue = []) (hres : st.result_queue = [])
    (hcres : st.chunk_result_queue = []) (hbusy : st.generation_in_progress = false)
    (hexit : st.should_exit = false)
    (hchunks : chunks = split_into_chunks text) (hn : n = chunks.length) (hpos : 1 ≤ n)
    (hr : r = (speak_streaming st text).1) (hst1 : st1 = (speak_streaming st text).2)
    (hlen : engines.length = n) (hst2 : st2 = worker_run engines st1) :
    (∀ k, k ≤ n → (worker_run (engines.take k) st1).chunk_queue.length = n - k ∧
      (worker_run (engines.take k) st1).request_queue = []) ∧
    st2.request_queue = [] ∧ st2.chunk_queue = [] ∧ is_generating st2 = false ∧
    st2.result_queue = [] ∧
    st2.chunk_result_queue = (List.range n).map (fun i =>
      expected_chunk_result r n i (stream_audio engines chunks st.speaker_id st.speed i)) ∧
    (process_pending_results st2).1 = ((List.range n).map (fun i =>
      expected_chunk_signals r n i
        (stream_audio engines chunks st.speaker_id st.speed i))).flatten ∧
    (process_pending_results st2).2.result_queue = [] ∧
    (process_pending_results st2).2.chunk_result_queue = [] ∧
    (process_pending_results st2).1.filter is_stream_completed =
      (if (stream_audio engines chunks st.speaker_id st.speed (n - 1)).isSome then
        [Signal.stream_completed r] else []) ∧
    (∀ a, stream_audio engines chunks st.speaker_id st.speed (n - 1) = some a →
      ∃ before, (process_pending_results st2).1 =
        before ++ [Signal.chunk_ready r ((n - 1 : Nat) : Int) (n : Int) (some a),
                   Signal.stream_completed r]) := by
  have hc : split_into_chunks text ≠ [] := by
    intro h0
    rw [← hchunks] at h0
    rw [hn, h0] at hpos
    simp at hpos
  have hrid : r = st.next_request_id := by
    rw [hr]; exact (speak_streaming_accepted st text htts hc).1
  obtain ⟨h1exit, h1busy, h1tts, h1rq, h1res, h1cres, h1cq⟩ :=
    speak_streaming_on_idle st text htts hc hrq hcq hres hcres hbusy hexit
  rw [← hst1, ← hchunks, ← hn, ← hrid] at h1cq
  rw [← hst1] at h1exit h1busy h1tts h1rq h1res h1cres
  have h1len : st1.chunk_queue.length = n := by rw [h1cq]; simp
  have hrun : ∀ es : List (Engine F A), es.length ≤ n →
      worker_run es st1 =
        { st1 with chunk_queue := st1.chunk_queue.drop es.length,
                   chunk_result_queue := st1.chunk_result_queue ++
                     List.zipWith (chunk_result st1.tts) es st1.chunk_queue } :=
    fun es hes => worker_run_chunks es st1 h1exit h1busy (by rw [h1len]; exact hes)
  have h2 := hrun engines (le_of_eq hlen)
  rw [← hst2] at h2
  have hz := zipWith_chunk_result engines chunks st.speaker_id st.speed r (by rw [hlen, hn])
  rw [← hn] at hz
  have h2cres : st2.chunk_result_queue = (List.range n).map (fun i =>
      expected_chunk_result r n i (stream_audio engines chunks st.speaker_id st.speed i)) := by
    rw [h2]
    simp only [h1cres, h1tts, h1cq, List.nil_append]
    exact hz
  have h2res : st2.result_queue = [] := by rw [h2]; exact h1res
  have hsig : (process_pending_results st2).1 = ((List.range n).map (fun i =>
      expected_chunk_signals r n i
        (stream_audio engines chunks st.speaker_id st.speed i))).flatten := by
    simp only [process_pending_results, h2res, h2cres, drain_results, drain_chunk_results_eq,
      List.nil_append, List.map_map]
    congr 1
    apply List.map_congr_left
    intro i _
    exact chunk_signals_expected r n i _
  obtain ⟨m, hm⟩ : ∃ m, n = m + 1 := ⟨n - 1, by omega⟩
  have hsplit : ((List.range n).map (fun i => expected_chunk_signals r n i
        (stream_audio engines chunks st.speaker_id st.speed i))).flatten
      = ((List.range m).map (fun i => expected_chunk_signals r n i
          (stream_audio engines chunks st.speaker_id st.speed i))).flatten
        ++ expected_chunk_signals r n m (stream_audio engines chunks st.speaker_id st.speed m) := by
    rw [hm, List.range_succ]
    simp
  have hm1 : n - 1 = m := by omega
  refine ⟨?_, ?_, ?_, ?_, h2res, h2cres, hsig, ?_, ?_, ?_, ?_⟩
  · intro k hk
    have hk2 : (engines.take k).length = k := by simp [hlen, hk]
    rw [hrun (engines.take k) (by rw [hk2]; exact hk)]
    simp [hk2, h1len, h1rq]
  · rw [h2]; exact h1rq
  · rw [h2]; simp [← h1len, hlen]
  · rw [h2]; simp [is_generating, h1busy, h1rq, ← h1len, hlen]
  · simp [process_pending_results, h2res, drain_results]
  · simp [process_pending_results, drain_chunk_results_eq]
  · rw [hsig, hsplit, List.filter_append,
      filter_expected_flatten r n _ m (by omega), hm1, List.nil_append]
    rw [hm]
    exact filter_expected_last r m _
  · intro a ha
    rw [hm1] at ha
    refine ⟨((List.range m).map (fun i => expected_chunk_signals r n i
          (stream_audio engines chunks st.speaker_id st.speed i))).flatten, ?_⟩
    rw [hsig, hsplit, ha, hm1]
    simp [expected_chunk_signals, hm]

/-- C9 on a stream of five chunks, the third of which fails to synthesise. -/
theorem C9_stream_results_in_order_witness :
    (speak_streaming sample_state "A. B. C. D. E.".toList).1 = 1 ∧
    ((worker_run sample_engines
        (speak_streaming sample_state "A. B. C. D. E.".toList).2).chunk_result_queue.map
      TTSChunkResult.chunk_index) = [0, 1, 2, 3, 4] ∧
    (process_pending_results (worker_run sample_engines
        (speak_streaming sample_state "A. B. C. D. E.".toList).2)).1
      = [Signal.chunk_ready 1 0 5 (some 10), Signal.chunk_ready 1 1 5 (some 11),
         Signal.generation_failed 1 "Failed to generate chunk audio".toList,
         Signal.chunk_ready 1 3 5 (some 13), Signal.chunk_ready 1 4 5 (some 14),
         Signal.stream_completed 1] := by
  have h := C9_stream_results_in_order sample_state
    (speak_streaming sample_state "A. B. C. D. E.".toList).2
    (worker_run sample_engines (speak_streaming sample_state "A. B. C. D. E.".toList).2)
    "A. B. C. D. E.".toList sample_engines
    (split_into_chunks "A. B. C. D. E.".toList) 5 1
    rfl rfl rfl rfl rfl rfl rfl rfl (by decide) (by decide) (by decide) rfl (by decide) rfl
  refine ⟨by decide, ?_, ?_⟩
  · rw [h.2.2.2.2.2.1]
    decide
  · rw [h.2.2.2.2.2.2.1]
    decide

section CancelFacts

variable {F A : Type}

theorem pop_all_eq_nil {α : Type} (queue : List α) : pop_all queue = [] := by
  induction queue with
  | nil => rfl
  | cons a l ih => simpa [pop_all] using ih

/-- A worker with nothing to take changes nothing. -/
theorem worker_iteration_idle (engine : Engine F A) (st : State F A)
    (hr : st.request_queue = []) (hc : st.chunk_queue = []) :
    worker_iteration engine st = st := by
  unfold worker_iteration take_next
  cases h : st.should_exit <;> simp [hr, hc, h, process_pulled]

theorem worker_run_idle (engines : List (Engine F A)) (st : State F A)
    (hr : st.request_queue = []) (hc : st.chunk_queue = []) :
    worker_run engines st = st := by
  induction engines with
  | nil => rfl
  | cons e es ih =>
    simp only [worker_run, List.foldl_cons] at ih ⊢
    rw [worker_iteration_idle e st hr hc]
    exact ih

end CancelFacts

/-- C10: in a state with at least one queued item and the busy flag false,
`cancel_generation` empties both work queues, so `is_generating` is false
afterwards; the result queues, the busy flag and the counter are unchanged
(the new state is the old one with both work queues emptied); a later worker
run does nothing, so the result queues still hold exactly what they held
before the cancel and a drain emits exactly the signals it would have emitted
before the cancel: nothing for the cancelled items. Whatever calls and worker
passes follow, the states they lead to do not depend on which items were
queued at the time of the cancel. Before the cancel `is_generating` is
true. -/
theorem C10_cancel_discards_queued {F A : Type} (st : State F A)
    (engines : List (Engine F A))
    (hq : st.request_queue ≠ [] ∨ st.chunk_queue ≠ [])
    (hbusy : st.generation_in_progress = false) :
    is_generating st = true ∧
    cancel_generation st = { st with request_queue := [], chunk_queue := [] } ∧
    (cancel_generation st).request_queue = [] ∧
    (cancel_generation st).chunk_queue = [] ∧
    is_generating (cancel_generation st) = false ∧
    (cancel_generation st).result_queue = st.result_queue ∧
    (cancel_generation st).chunk_result_queue = st.chunk_result_queue ∧
    (cancel_generation st).generation_in_progress = st.generation_in_progress ∧
    (cancel_generation st).next_request_id = st.next_request_id ∧
    worker_run engines (cancel_generation st) = cancel_generation st ∧
    (worker_run engines (cancel_generation st)).result_queue = st.result_queue ∧
    (worker_run engines (cancel_generation st)).chunk_result_queue = st.chunk_result_queue ∧
    (process_pending_results (worker_run engines (cancel_generation st))).1
      = (process_pending_results st).1 ∧
    (∀ (rq : List (TTSRequest F)) (cq : List (TTSChunk F)) (ops : List (Op F A)),
      run_ops (cancel_generation st) ops
        = run_ops (cancel_generation { st with request_queue := rq, chunk_queue := cq }) ops) := by
  have e : cancel_generation st = { st with request_queue := [], chunk_queue := [] } := by
    simp [cancel_generation, pop_all_eq_nil]
  have hw : worker_run engines (cancel_generation st) = cancel_generation st :=
    worker_run_idle engines _ (by rw [e]) (by rw [e])
  refine ⟨?_, e, by rw [e], by rw [e], ?_, by rw [e], by rw [e], by rw [e], by rw [e], hw,
    by rw [hw, e], by rw [hw, e], by rw [hw, e]; rfl, ?_⟩
  · rcases hq with hq | hq
    · cases hrq : st.request_queue with
      | nil => exact absurd hrq hq
      | cons a l => simp [is_generating, hrq]
    · cases hcq : st.chunk_queue with
      | nil => exact absurd hcq hq
      | cons a l => simp [is_generating, hcq]
  · rw [e]
    simp [is_generating, hbusy]
  · intro rq cq ops
    have e2 : cancel_generation { st with request_queue := rq, chunk_queue := cq }
        = { st with request_queue := [], chunk_queue := [] } := by
      simp [cancel_generation, pop_all_eq_nil]
    rw [e, e2]

/-- C10 on a state with three queued items and one finished result. -/
theorem C10_cancel_discards_queued_witness :
    is_generating sample_busy_queue = true ∧
    is_generating (cancel_generation sample_busy_queue) = false ∧
    (process_pending_results
      (worker_run [fun _ _ _ => some 9, fun _ _ _ => none, fun _ _ _ => some 8]
        (cancel_generation sample_busy_queue))).1
      = [Signal.generation_completed 1 (some 5), Signal.speech_generated (some 5)] := by
  have h := C10_cancel_discards_queued sample_busy_queue
    [fun _ _ _ => some 9, fun _ _ _ => none, fun _ _ _ => some 8] (Or.inl (by decide)) rfl
  refine ⟨h.1, h.2.2.2.2.1, ?_⟩
  rw [h.2.2.2.2.2.2.2.2.2.2.2.2.1]
  decide


section TakeNextFacts

variable {F A : Type}

theorem take_next_request (st : State F A) (r : TTSRequest F) (queue : List (TTSRequest F))
    (hexit : st.should_exit = false) (hcq : st.chunk_queue = [])
    (hrq : st.request_queue = r :: queue) :
    take_next st = (Pulled.request r, { st with request_queue := queue }) := by
  unfold take_next
  rw [hcq, hrq]
  simp [hexit]

theorem take_next_exit (st : State F A) (hexit : st.should_exit = true) :
    take_next st = (Pulled.exit, st) := by
  unfold take_next
  simp [hexit]

theorem worker_iteration_request (engine : Engine F A) (st : State F A) (r : TTSRequest F)
    (queue : List (TTSRequest F)) (hexit : st.should_exit = false) (hcq : st.chunk_queue = [])
    (hrq : st.request_queue = r :: queue) :
    worker_iteration engine st =
      { st with request_queue := queue,
                result_queue := st.result_queue ++ [request_result st.tts engine r],
                generation_in_progress := false } := by
  unfold worker_iteration
  rw [take_next_request st r queue hexit hcq hrq]
  cases ht : st.tts <;>
    simp [hexit, process_pulled, process_request, generate_audio_internal, request_result, ht]

end TakeNextFacts

/-- C13: at a pull with the shutdown flag not set and a work queue non-empty,
the worker takes the front of the chunk queue if that queue is non-empty and
otherwise the front of the request queue; the new state is the old one with
exactly that item removed from the front of its queue, so the other queue and
the order of the remaining items are unchanged; a request is only taken when
the chunk queue is empty, and the pull neither waits nor exits. -/
theorem C13_chunk_priority_fifo {F A : Type} (st : State F A)
    (hexit : st.should_exit = false)
    (hwork : st.chunk_queue ≠ [] ∨ st.request_queue ≠ []) :
    (∀ c queue, st.chunk_queue = c :: queue →
      take_next st = (Pulled.chunk c, { st with chunk_queue := queue })) ∧
    (∀ r queue, st.chunk_queue = [] → st.request_queue = r :: queue →
      take_next st = (Pulled.request r, { st with request_queue := queue })) ∧
    (∀ r, (take_next st).1 = Pulled.request r → st.chunk_queue = []) ∧
    (take_next st).1 ≠ Pulled.waiting ∧ (take_next st).1 ≠ Pulled.exit := by
  refine ⟨fun c queue h => take_next_chunk st c queue hexit h,
    fun r queue hc hr => take_next_request st r queue hexit hc hr, ?_, ?_⟩
  · intro r hr
    cases hcq : st.chunk_queue with
    | nil => rfl
    | cons c queue =>
      rw [take_next_chunk st c queue hexit hcq] at hr
      simp at hr
  · cases hcq : st.chunk_queue with
    | cons c queue =>
      rw [take_next_chunk st c queue hexit hcq]
      simp
    | nil =>
      cases hrq : st.request_queue with
      | cons r queue =>
        rw [take_next_request st r queue hexit hcq hrq]
        simp
      | nil =>
        rcases hwork with h | h
        · exact absurd hcq h
        · exact absurd hrq h

/-- C13 on a state with one request and two chunks queued: the first chunk is
taken, the second chunk and the request stay. -/
theorem C13_chunk_priority_fifo_witness :
    take_next sample_busy_queue =
      (Pulled.chunk { text := "A.".toList, speaker_id := 0, speed := 1, request_id := 3,
                      chunk_index := 0, total_chunks := 2, is_streaming := true },
       { sample_busy_queue with
         chunk_queue :=
           [{ text := "B.".toList, speaker_id := 0, speed := 1, request_id := 3,
              chunk_index := 1, total_chunks := 2, is_streaming := true }] }) :=
  (C13_chunk_priority_fifo sample_busy_queue rfl (Or.inl (by decide))).1 _ _ rfl

/-- C14, as stated, fails: with the shutdown flag set and three items queued,
the take-next step returns the shutdown indicator and pops nothing; it does not
hand the front chunk to the worker, and the worker pass changes nothing. -/
theorem C14_counterexample :
    sample_stopping.should_exit = true ∧
    sample_stopping.chunk_queue.length = 2 ∧ sample_stopping.request_queue.length = 1 ∧
    take_next sample_stopping = (Pulled.exit, sample_stopping) ∧
    (take_next sample_stopping).1 ≠
      Pulled.chunk { text := "A.".toList, speaker_id := 0, speed := 1, request_id := 3,
                     chunk_index := 0, total_chunks := 2, is_streaming := true } ∧
    worker_iteration (fun _ _ _ => some 9) sample_stopping = sample_stopping := by
  decide

/-- C14, amended: when the worker wakes in its take-next step with the
shutdown flag set, it returns the shutdown indicator whether or not the work
queues are empty; nothing is popped and nothing is processed, so the state,
queued items included, is unchanged by the pass. -/
theorem C14_shutdown_exits_at_once {F A : Type} (st : State F A) (engine : Engine F A)
    (hexit : st.should_exit = true) :
    take_next st = (Pulled.exit, st) ∧
    process_pulled engine (take_next st).1 (take_next st).2 = st ∧
    worker_iteration engine st = st := by
  refine ⟨take_next_exit st hexit, ?_, ?_⟩
  · rw [take_next_exit st hexit]
    rfl
  · simp [worker_iteration, hexit]

/-- C14 (amended) on a state with the shutdown flag set and items queued. -/
theorem C14_shutdown_exits_at_once_witness :
    take_next sample_stopping = (Pulled.exit, sample_stopping) ∧
    (worker_iteration (fun _ _ _ => some 9) sample_stopping).chunk_queue.length = 2 := by
  have h := C14_shutdown_exits_at_once sample_stopping (fun _ _ _ => some 9) rfl
  exact ⟨h.1, by rw [h.2.2]; decide⟩


section WorkerPassFacts

variable {F A : Type}

/-- The four outcomes of the take-next step. -/
theorem take_next_cases (st : State F A) :
    take_next st = (Pulled.waiting, st) ∨ take_next st = (Pulled.exit, st) ∨
    (∃ c queue, st.should_exit = false ∧ st.chunk_queue = c :: queue ∧
      take_next st = (Pulled.chunk c, { st with chunk_queue := queue })) ∨
    (∃ r queue, st.should_exit = false ∧ st.chunk_queue = [] ∧ st.request_queue = r :: queue ∧
      take_next st = (Pulled.request r, { st with request_queue := queue })) := by
  rcases Bool.eq_false_or_eq_true st.should_exit with hexit | hexit
  · exact Or.inr (Or.inl (take_next_exit st hexit))
  · by_cases hcq : st.chunk_queue = []
    · by_cases hrq : st.request_queue = []
      · left
        unfold take_next
        simp [hexit, hcq, hrq]
      · obtain ⟨r, queue, hr⟩ := List.exists_cons_of_ne_nil hrq
        exact Or.inr (Or.inr (Or.inr ⟨r, queue, hexit, hcq, hr,
          take_next_request st r queue hexit hcq hr⟩))
    · obtain ⟨c, queue, hc⟩ := List.exists_cons_of_ne_nil hcq
      exact Or.inr (Or.inr (Or.inl ⟨c, queue, hexit, hc, take_next_chunk st c queue hexit hc⟩))

/-- What the take-next step hands out depends on the shutdown flag and the
two work queues only. -/
theorem take_next_fst_congr (s t : State F A) (h1 : s.should_exit = t.should_exit)
    (h2 : s.request_queue = t.request_queue) (h3 : s.chunk_queue = t.chunk_queue) :
    (take_next s).1 = (take_next t).1 := by
  unfold take_next
  rw [h1, h2, h3]
  cases t.should_exit <;> cases t.chunk_queue <;> cases t.request_queue <;> simp

end WorkerPassFacts

/-- C12: for every item the worker pulls and every engine behaviour, the
pass pushes exactly one result, of the kind of the item (behind the old
contents of the chunk result queue for a chunk, of the result queue for a
request) and leaves the other result queue unchanged; the result carries the
item's request_id (and chunk_index and total_chunks for a chunk) and the audio
of `generate_audio_internal` on the item's text, speaker and speed, which is
the engine's answer when a model is loaded; success is true exactly when that
audio is valid; on failure the message is "Failed to generate chunk audio"
(chunk) or "Failed to generate audio" (request); the work queues are the ones
the pull left (the item is not queued again), the busy flag is cleared, the
shutdown flag is unchanged and the next pull hands out what the pull would
hand out on the queues that were left. -/
theorem C12_one_result_per_item {F A : Type} (st : State F A) (engine : Engine F A) :
    (∀ c st1, take_next st = (Pulled.chunk c, st1) →
      worker_iteration engine st =
        { st1 with chunk_result_queue :=
                     st.chunk_result_queue ++ [chunk_result st.tts engine c],
                   generation_in_progress := false } ∧
      (worker_iteration engine st).chunk_result_queue
        = st.chunk_result_queue ++ [chunk_result st.tts engine c] ∧
      (worker_iteration engine st).result_queue = st.result_queue ∧
      (worker_iteration engine st).chunk_queue = st1.chunk_queue ∧
      (worker_iteration engine st).request_queue = st1.request_queue ∧
      (worker_iteration engine st).generation_in_progress = false ∧
      (worker_iteration engine st).should_exit = false ∧
      (take_next (worker_iteration engine st)).1 = (take_next st1).1) ∧
    (∀ r st1, take_next st = (Pulled.request r, st1) →
      worker_iteration engine st =
        { st1 with result_queue := st.result_queue ++ [request_result st.tts engine r],
                   generation_in_progress := false } ∧
      (worker_iteration engine st).result_queue
        = st.result_queue ++ [request_result st.tts engine r] ∧
      (worker_iteration engine st).chunk_result_queue = st.chunk_result_queue ∧
      (worker_iteration engine st).chunk_queue = st1.chunk_queue ∧
      (worker_iteration engine st).request_queue = st1.request_queue ∧
      (worker_iteration engine st).generation_in_progress = false ∧
      (worker_iteration engine st).should_exit = false ∧
      (take_next (worker_iteration engine st)).1 = (take_next st1).1) ∧
    (∀ c : TTSChunk F,
      (chunk_result st.tts engine c).request_id = c.request_id ∧
      (chunk_result st.tts engine c).chunk_index = c.chunk_index ∧
      (chunk_result st.tts engine c).total_chunks = c.total_chunks ∧
      (chunk_result st.tts engine c).audio
        = generate_audio_internal engine st c.text c.speaker_id c.speed ∧
      (st.tts = true →
        (chunk_result st.tts engine c).audio = engine c.text c.speaker_id c.speed) ∧
      (chunk_result st.tts engine c).success = (chunk_result st.tts engine c).audio.isSome ∧
      ((chunk_result st.tts engine c).audio = none →
        (chunk_result st.tts engine c).success = false ∧
        (chunk_result st.tts engine c).error_message
          = "Failed to generate chunk audio".toList)) ∧
    (∀ r : TTSRequest F,
      (request_result st.tts engine r).request_id = r.request_id ∧
      (request_result st.tts engine r).audio
        = generate_audio_internal engine st r.text r.speaker_id r.speed ∧
      (st.tts = true →
        (request_result st.tts engine r).audio = engine r.text r.speaker_id r.speed) ∧
      (request_result st.tts engine r).success
        = (request_result st.tts engine r).audio.isSome ∧
      ((request_result st.tts engine r).audio = none →
        (request_result st.tts engine r).success = false ∧
        (request_result st.tts engine r).error_message
          = "Failed to generate audio".toList)) := by
  refine ⟨?_, ?_, ?_, ?_⟩
  · intro c st1 h
    rcases take_next_cases st with h0 | h0 | ⟨c2, queue, hexit, hcq, h0⟩ | ⟨r2, queue, _, _, _, h0⟩
    · rw [h0] at h; simp at h
    · rw [h0] at h; simp at h
    · rw [h0] at h
      simp only [Prod.mk.injEq, Pulled.chunk.injEq] at h
      obtain ⟨hc, hs⟩ := h
      subst hc
      subst hs
      have hw := worker_iteration_chunk engine st c2 queue hexit hcq
      refine ⟨hw, by rw [hw], by rw [hw], by rw [hw], by rw [hw], by rw [hw],
        by rw [hw]; exact hexit, ?_⟩
      rw [hw]
      exact take_next_fst_congr _ _ rfl rfl rfl
    · rw [h0] at h; simp at h
  · intro r st1 h
    rcases take_next_cases st with h0 | h0 | ⟨c2, queue, _, _, h0⟩ | ⟨r2, queue, hexit, hcq, hrq, h0⟩
    · rw [h0] at h; simp at h
    · rw [h0] at h; simp at h
    · rw [h0] at h; simp at h
    · rw [h0] at h
      simp only [Prod.mk.injEq, Pulled.request.injEq] at h
      obtain ⟨hr, hs⟩ := h
      subst hr
      subst hs
      have hw := worker_iteration_request engine st r2 queue hexit hcq hrq
      refine ⟨hw, by rw [hw], by rw [hw], by rw [hw], by rw [hw], by rw [hw],
        by rw [hw]; exact hexit, ?_⟩
      rw [hw]
      exact take_next_fst_congr _ _ rfl rfl rfl
  · intro c
    refine ⟨rfl, rfl, rfl, ?_, ?_, rfl, ?_⟩
    · cases ht : st.tts <;> simp [chunk_result, generate_audio_internal, ht]
    · intro ht
      simp [chunk_result, ht]
    · intro hnone
      simp only [chunk_result] at hnone ⊢
      rw [hnone]
      exact ⟨rfl, rfl⟩
  · intro r
    refine ⟨rfl, ?_, ?_, rfl, ?_⟩
    · cases ht : st.tts <;> simp [request_result, generate_audio_internal, ht]
    · intro ht
      simp [request_result, ht]
    · intro hnone
      simp only [request_result] at hnone ⊢
      rw [hnone]
      exact ⟨rfl, rfl⟩

/-- C12 on a state with one chunk and one request queued: a failing engine on
the chunk, then a succeeding engine on the request. -/
theorem C12_one_result_per_item_witness :
    (worker_iteration (fun _ _ _ => none) sample_mixed_queue).chunk_result_queue =
      [{ audio := none, request_id := 3, chunk_index := 0, total_chunks := 1, success := false,
         error_message := "Failed to generate chunk audio".toList }] ∧
    (worker_iteration (fun _ _ _ => none) sample_mixed_queue).chunk_queue = [] ∧
    (worker_iteration (fun _ _ _ => none) sample_mixed_queue).generation_in_progress = false ∧
    (worker_run [fun _ _ _ => none, fun _ _ _ => some 6] sample_mixed_queue).result_queue =
      [{ audio := some 6, request_id := 2, success := true, error_message := [] }] := by
  have h := (C12_one_result_per_item sample_mixed_queue (fun _ _ _ => none)).1
    { text := "A.".toList, speaker_id := 0, speed := 1, request_id := 3, chunk_index := 0,
      total_chunks := 1, is_streaming := true }
    { sample_mixed_queue with chunk_queue := [] } (by decide)
  refine ⟨?_, ?_, h.2.2.2.2.2.1, by decide⟩
  · rw [h.2.1]
    decide
  · rw [h.2.2.2.1]


section DeliveryFacts

variable {F A : Type}

/-- The three effects a worker pass can have. -/
theorem worker_iteration_cases (engine : Engine F A) (st : State F A) :
    worker_iteration engine st = st ∨
    (∃ c queue, worker_iteration engine st =
      { st with chunk_queue := queue,
                chunk_result_queue := st.chunk_result_queue ++ [chunk_result st.tts engine c],
                generation_in_progress := false }) ∨
    (∃ r queue, worker_iteration engine st =
      { st with request_queue := queue,
                result_queue := st.result_queue ++ [request_result st.tts engine r],
                generation_in_progress := false }) := by
  rcases take_next_cases st with h0 | h0 | ⟨c, queue, hexit, hcq, _⟩ | ⟨r, queue, hexit, hcq, hrq, _⟩
  · left
    unfold worker_iteration
    rw [h0]
    cases st.should_exit <;> simp [process_pulled]
  · left
    unfold worker_iteration
    rw [h0]
    cases st.should_exit <;> simp [process_pulled]
  · exact Or.inr (Or.inl ⟨c, queue, worker_iteration_chunk engine st c queue hexit hcq⟩)
  · exact Or.inr (Or.inr ⟨r, queue, worker_iteration_request engine st r queue hexit hcq hrq⟩)

/-- A pass pushes nothing, one chunk result or one request result, and the
result queues grow by exactly what it pushes. -/
theorem pass_pushed_spec (engine : Engine F A) (st : State F A) :
    (pass_pushed engine st).length ≤ 1 ∧
    (worker_iteration engine st).result_queue
      = st.result_queue ++ (pass_pushed engine st).filterMap Finished.request? ∧
    (worker_iteration engine st).chunk_result_queue
      = st.chunk_result_queue ++ (pass_pushed engine st).filterMap Finished.chunk? := by
  unfold pass_pushed
  rcases worker_iteration_cases engine st with h | ⟨c, queue, h⟩ | ⟨r, queue, h⟩
  · rw [h]; simp
  · rw [h]; simp [Finished.request?, Finished.chunk?]
  · rw [h]; simp [Finished.request?, Finished.chunk?]

/-- Over a run the result queues grow by the log, each by its own kind. -/
theorem worker_run_queues (engines : List (Engine F A)) (st : State F A) :
    (worker_run engines st).result_queue
      = st.result_queue ++ (worker_log engines st).filterMap Finished.request? ∧
    (worker_run engines st).chunk_result_queue
      = st.chunk_result_queue ++ (worker_log engines st).filterMap Finished.chunk? := by
  induction engines generalizing st with
  | nil => simp [worker_run, worker_log]
  | cons e es ih =>
    have h := pass_pushed_spec e st
    have ih2 := ih (worker_iteration e st)
    simp only [worker_run, List.foldl_cons] at ih2 ⊢
    rw [ih2.1, ih2.2, h.2.1, h.2.2]
    simp [worker_log, List.filterMap_append]

theorem drain_results_eq (queue : List (TTSResult A)) :
    drain_results queue = ((queue.map request_signals).flatten, []) := by
  induction queue with
  | nil => rfl
  | cons a l ih => simp [drain_results, ih, request_signals]

theorem filter_request_signals (result : TTSResult A) :
    (request_signals result).filter is_result_notification
      = [result_notification (Finished.request result)] := by
  cases h : result.success <;>
    simp [request_signals, result_notification, is_result_notification, h]

theorem filter_chunk_signals (result : TTSChunkResult A) :
    (chunk_signals result).filter is_result_notification
      = [result_notification (Finished.chunk result)] := by
  cases h : result.success
  · simp [chunk_signals, result_notification, is_result_notification, h]
  · by_cases hl : result.chunk_index = result.total_chunks - 1 <;>
      simp [chunk_signals, result_notification, is_result_notification, h, hl]

theorem filter_flatten_map_singleton {α : Type} (f : α → List (Signal A)) (g : α → Signal A)
    (h : ∀ a, (f a).filter is_result_notification = [g a]) (l : List α) :
    ((l.map f).flatten).filter is_result_notification = l.map g := by
  induction l with
  | nil => rfl
  | cons a l ih => simp [List.filter_append, h a, ih]

/-- The result notifications of a drain: those of the request results in
queue order, then those of the chunk results in queue order. -/
theorem drain_notifications (st : State F A) :
    (process_pending_results st).1.filter is_result_notification
      = st.result_queue.map (fun r => result_notification (Finished.request r))
        ++ st.chunk_result_queue.map (fun c => result_notification (Finished.chunk c)) := by
  simp only [process_pending_results, drain_results_eq, drain_chunk_results_eq,
    List.filter_append]
  rw [filter_flatten_map_singleton request_signals _ filter_request_signals,
    filter_flatten_map_singleton chunk_signals _ filter_chunk_signals]

theorem filterMap_request_of_all (log : List (Finished A))
    (h : ∀ f ∈ log, f.chunk? = none) :
    (log.filterMap Finished.request?).map (fun r => result_notification (Finished.request r))
      = log.map result_notification ∧ log.filterMap Finished.chunk? = [] := by
  induction log with
  | nil => simp
  | cons a l ih =>
    have ih2 := ih (fun f hf => h f (by simp [hf]))
    cases a with
    | request r => simp [Finished.request?, Finished.chunk?, ih2.1, ih2.2]
    | chunk c => have := h (Finished.chunk c) (by simp); simp [Finished.chunk?] at this

theorem filterMap_chunk_of_all (log : List (Finished A))
    (h : ∀ f ∈ log, f.request? = none) :
    (log.filterMap Finished.chunk?).map (fun c => result_notification (Finished.chunk c))
      = log.map result_notification ∧ log.filterMap Finished.request? = [] := by
  induction log with
  | nil => simp
  | cons a l ih =>
    have ih2 := ih (fun f hf => h f (by simp [hf]))
    cases a with
    | chunk c => simp [Finished.request?, Finished.chunk?, ih2.1, ih2.2]
    | request r => have := h (Finished.request r) (by simp); simp [Finished.request?] at this

end DeliveryFacts

/-- C11, as stated, fails: after a request and then a one-chunk stream are
submitted, the worker finishes the chunk first and the request second, but the
drain notifies the request first and the chunk second. -/
theorem C11_counterexample :
    worker_log [fun _ _ _ => some 5, fun _ _ _ => some 6] sample_submitted =
      [Finished.chunk { audio := some 5, request_id := 2, chunk_index := 0, total_chunks := 1,
                        success := true, error_message := [] },
       Finished.request { audio := some 6, request_id := 1, success := true,
                          error_message := [] }] ∧
    (process_pending_results
        (worker_run [fun _ _ _ => some 5, fun _ _ _ => some 6] sample_submitted)).1.filter
      is_result_notification
      = [Signal.generation_completed 1 (some 6), Signal.chunk_ready 2 0 1 (some 5)] ∧
    (process_pending_results
        (worker_run [fun _ _ _ => some 5, fun _ _ _ => some 6] sample_submitted)).1.filter
      is_result_notification
      ≠ (worker_log [fun _ _ _ => some 5, fun _ _ _ => some 6] sample_submitted).map
          result_notification := by
  decide

/-- C11, amended: a worker pass pushes at most one result, and over a run
each result queue grows by the results of its kind in the order the worker
pushed them. A drain emits the notifications of the request results in the
order the worker pushed them, followed by the notifications of the chunk
results in the order the worker pushed them: the order is the worker's within
each kind, and every request result is notified before every chunk result.
When the result queues start empty and the worker pushes results of one kind
only, the notifications are in the order the worker pushed the results. -/
theorem C11_delivery_order_per_kind {F A : Type} (st : State F A)
    (engines : List (Engine F A)) :
    (∀ (e : Engine F A) (s : State F A), (pass_pushed e s).length ≤ 1) ∧
    (worker_run engines st).result_queue
      = st.result_queue ++ (worker_log engines st).filterMap Finished.request? ∧
    (worker_run engines st).chunk_result_queue
      = st.chunk_result_queue ++ (worker_log engines st).filterMap Finished.chunk? ∧
    (process_pending_results (worker_run engines st)).1.filter is_result_notification
      = (st.result_queue ++ (worker_log engines st).filterMap Finished.request?).map
          (fun r => result_notification (Finished.request r))
        ++ (st.chunk_result_queue ++ (worker_log engines st).filterMap Finished.chunk?).map
          (fun c => result_notification (Finished.chunk c)) ∧
    (st.result_queue = [] → st.chunk_result_queue = [] →
      ((∀ f ∈ worker_log engines st, f.chunk? = none) ∨
        (∀ f ∈ worker_log engines st, f.request? = none)) →
      (process_pending_results (worker_run engines st)).1.filter is_result_notification
        = (worker_log engines st).map result_notification) := by
  have hq := worker_run_queues engines st
  have hd := drain_notifications (worker_run engines st)
  rw [hq.1, hq.2] at hd
  refine ⟨fun e s => (pass_pushed_spec e s).1, hq.1, hq.2, hd, ?_⟩
  intro h1 h2 hkind
  rw [hd, h1, h2]
  rcases hkind with h | h
  · obtain ⟨e1, e2⟩ := filterMap_request_of_all _ h
    simp [e1, e2]
  · obtain ⟨e1, e2⟩ := filterMap_chunk_of_all _ h
    simp [e1, e2]

/-- C11 (amended) on a stream of two chunks submitted on `sample_state`: only
chunk results are pushed and they are notified in the order pushed. -/
theorem C11_delivery_order_per_kind_witness :
    (process_pending_results
        (worker_run [fun _ _ _ => some 5, fun _ _ _ => none]
          (speak_streaming sample_state "A. B.".toList).2)).1.filter is_result_notification
      = [Signal.chunk_ready 1 0 2 (some 5),
         Signal.generation_failed 1 "Failed to generate chunk audio".toList] := by
  have h := (C11_delivery_order_per_kind (speak_streaming sample_state "A. B.".toList).2
    [fun _ _ _ => some 5, fun _ _ _ => none]).2.2.2.2 (by decide) (by decide)
    (Or.inr (by decide))
  rw [h]
  decide


/-! ## Counting the chunks -/

theorem closer_not_terminator (c : Char) (h : is_closer c = true) : is_terminator c = false := by
  simp only [is_closer, Bool.or_eq_true, beq_iff_eq] at h
  rcases h with ((h | h) | h) | h <;> subst h <;> decide

theorem whitespace_not_terminator (c : Char) (h : is_whitespace c = true) :
    is_terminator c = false := by
  cases ht : is_terminator c
  · rfl
  · have := terminator_not_whitespace c ht
    rw [h] at this
    exact absurd this (by simp)

theorem countP_terminator_of_all {p : Char → Bool} (l : List Char)
    (hp : ∀ c, p c = true → is_terminator c = false) (h : ∀ c ∈ l, p c = true) :
    l.countP is_terminator = 0 := by
  rw [List.countP_eq_zero]
  intro c hc
  simp [hp c (h c hc)]

theorem countP_terminator_strip_edges (b : List Char) :
    (strip_edges b).countP is_terminator = b.countP is_terminator := by
  obtain ⟨l, r, hl, hr, hb⟩ := strip_edges_decomp b
  conv_rhs => rw [hb]
  rw [List.countP_append, List.countP_append,
    countP_terminator_of_all l whitespace_not_terminator hl,
    countP_terminator_of_all r whitespace_not_terminator hr]
  simp

theorem countP_terminator_takeWhile_closer (rest : List Char) :
    (rest.takeWhile is_closer).countP is_terminator = 0 :=
  countP_terminator_of_all _ closer_not_terminator (fun _ hc => List.mem_takeWhile_imp hc)

theorem countP_terminator_dropWhile_closer (rest : List Char) :
    (rest.dropWhile is_closer).countP is_terminator = rest.countP is_terminator := by
  conv_rhs => rw [← List.takeWhile_append_dropWhile is_closer rest]
  rw [List.countP_append, countP_terminator_takeWhile_closer]
  simp

theorem after_last_terminator_dropWhile_closer (rest : List Char) :
    after_last_terminator (rest.dropWhile is_closer) = after_last_terminator rest := by
  induction rest with
  | nil => rfl
  | cons c l ih =>
    by_cases hc : is_closer c = true
    · rw [List.dropWhile_cons_of_pos hc, ih]
      simp only [after_last_terminator, closer_not_terminator c hc]
      cases after_last_terminator l <;> simp
    · rw [List.dropWhile_cons_of_neg hc]

theorem has_content_iff (s : List Char) : has_content s = true ↔ strip_edges s ≠ [] := by
  rw [Ne, strip_edges_eq_nil_iff]
  simp [has_content]

theorem push_trimmed_of_terminator (chunks : List (List Char)) (b : List Char)
    (h : b.countP is_terminator = 1) :
    push_trimmed chunks b = chunks ++ [strip_edges b] := by
  have hne : strip_edges b ≠ [] := by
    intro h0
    have := countP_terminator_strip_edges b
    rw [h0, h] at this
    simp at this
  simp [push_trimmed, hne]

/-- The loop closes one chunk per terminator, each chunk holding exactly one
terminator, and ends with the part after the last terminator and its closers
in the buffer. -/
theorem scan_all_count (text : List Char) :
    (scan_all text [] []).1.length = text.countP is_terminator ∧
    (∀ c ∈ (scan_all text [] []).1, c.countP is_terminator = 1) ∧
    (scan_all text [] []).2 = tail_part text ∧
    (scan_all text [] []).2.countP is_terminator = 0 := by
  have h := scan_all_invariant
    (fun rest cur chunks =>
      cur.countP is_terminator = 0 ∧ (∀ c ∈ chunks, c.countP is_terminator = 1) ∧
      chunks.length + rest.countP is_terminator = text.countP is_terminator ∧
      residue cur rest = tail_part text)
    (by
      rintro c rest cur chunks hc ⟨h1, h2, h3, h4⟩
      have hb : (cur ++ [c] ++ rest.takeWhile is_closer).countP is_terminator = 1 := by
        rw [List.countP_append, List.countP_append, h1, countP_terminator_takeWhile_closer]
        simp [hc]
      rw [push_trimmed_of_terminator _ _ hb]
      refine ⟨rfl, ?_, ?_, ?_⟩
      · intro x hx
        rcases List.mem_append.1 hx with hx | hx
        · exact h2 x hx
        · simp only [List.mem_singleton] at hx
          rw [hx, countP_terminator_strip_edges]
          exact hb
      · rw [countP_terminator_dropWhile_closer, ← h3]
        simp [List.countP_cons, hc]
        omega
      · rw [← h4]
        simp only [residue, after_last_terminator_dropWhile_closer, after_last_terminator, hc,
          if_true]
        cases after_last_terminator rest <;> simp)
    (by
      rintro c rest cur chunks hc ⟨h1, h2, h3, h4⟩
      refine ⟨?_, h2, ?_, ?_⟩
      · rw [List.countP_append, h1]
        simp [hc]
      · rw [← h3]
        simp [List.countP_cons, hc]
      · rw [← h4]
        simp only [residue, after_last_terminator, hc]
        cases after_last_terminator rest <;> simp)
    text [] [] ⟨rfl, by simp, by simp, by
      simp only [residue, tail_part]
      cases after_last_terminator text <;> simp⟩
  obtain ⟨h1, h2, h3, h4⟩ := h
  refine ⟨by simpa using h3, h2, ?_, h1⟩
  rw [← h4]
  simp [residue, after_last_terminator]

theorem scan_all_woven (text : List Char) :
    Woven text (push_trimmed (scan_all text [] []).1 (scan_all text [] []).2) := by
  have hscan := scan_all_invariant
    (fun rest cur chunks => ∃ pre, Woven pre chunks ∧ pre ++ cur ++ rest = text)
    (by
      rintro c rest cur chunks _ ⟨pre, hw, he⟩
      refine ⟨pre ++ (cur ++ [c] ++ rest.takeWhile is_closer), woven_push _ _ _ hw, ?_⟩
      rw [← he]
      simp)
    (by
      rintro c rest cur chunks _ ⟨pre, hw, he⟩
      exact ⟨pre, hw, by rw [← he]; simp⟩)
    text [] [] ⟨[], woven_nil, by simp⟩
  obtain ⟨pre, hw, he⟩ := hscan
  have := woven_push pre (scan_all text [] []).2 _ hw
  rw [List.append_nil] at he
  rw [he] at this
  exact this

/-- The last push of `split_into_chunks` (line 563) never fires: the result
is the chunks of the loop and the trimmed rest of the buffer. -/
theorem split_into_chunks_eq_push (text : List Char) :
    split_into_chunks text
      = push_trimmed (scan_all text [] []).1 (scan_all text [] []).2 := by
  rw [split_into_chunks_eq]
  split
  · rename_i ht
    have : text = [] := by simpa using ht
    subst this
    simp [scan_all_nil, push_trimmed, strip_edges]
  · simp only
    split
    · rename_i hcond
      simp only [Bool.and_eq_true, Bool.not_eq_true', List.isEmpty_eq_true] at hcond
      have hw := scan_all_woven text
      rw [hcond.1] at hw
      have := woven_empty_chunks text hw
      rw [this] at hcond
      simp at hcond
    · rfl

/-- C15: the number of chunks is the number of terminators in the text, plus
one if the part after the last terminator and the closers directly following
it (the whole text without terminator) has a character that is not
whitespace. The chunks are first one chunk per terminator, each holding
exactly one terminator, then at most one chunk without terminator. In
particular `Wait...` gives 3 chunks and `3.14` gives 2. -/
theorem C15_chunk_count :
    (∀ text : List Char,
      (split_into_chunks text).length
        = text.countP is_terminator + (if has_content (tail_part text) then 1 else 0) ∧
      ∃ closed last : List (List Char),
        split_into_chunks text = closed ++ last ∧
        closed.length = text.countP is_terminator ∧
        (∀ c ∈ closed, c.countP is_terminator = 1) ∧
        last.length ≤ 1 ∧ (∀ c ∈ last, c.countP is_terminator = 0)) ∧
    (split_into_chunks "Wait...".toList).length = 3 ∧
    (split_into_chunks "3.14".toList).length = 2 := by
  refine ⟨?_, by decide, by decide⟩
  intro text
  obtain ⟨h1, h2, h3, h4⟩ := scan_all_count text
  rw [split_into_chunks_eq_push, ← h3]
  by_cases hc : has_content (scan_all text [] []).2 = true
  · have hne := (has_content_iff _).1 hc
    have hp : push_trimmed (scan_all text [] []).1 (scan_all text [] []).2
        = (scan_all text [] []).1 ++ [strip_edges (scan_all text [] []).2] := by
      simp [push_trimmed, hne]
    rw [hp]
    refine ⟨by simp [h1, hc], (scan_all text [] []).1, [strip_edges (scan_all text [] []).2],
      rfl, h1, h2, by simp, ?_⟩
    intro c hcm
    simp only [List.mem_singleton] at hcm
    rw [hcm, countP_terminator_strip_edges]
    exact h4
  · have he : strip_edges (scan_all text [] []).2 = [] := by
      by_contra hne
      exact hc ((has_content_iff _).2 hne)
    have hp : push_trimmed (scan_all text [] []).1 (scan_all text [] []).2
        = (scan_all text [] []).1 := by
      simp [push_trimmed, he]
    rw [hp]
    exact ⟨by simp [h1, hc], (scan_all text [] []).1, [], by simp, h1, h2, by simp, by simp⟩

end TextToSpeech
